import Mathlib

/-!
# ascii-art

A shallow embedding of `ascii-art.cpp`: the brightness matrix of an image, the
mapping of brightness values onto a fixed ramp of ASCII characters, the rendering
of the character grid for a terminal, and the command line parser.

Modelling conventions.

* A finite `double` is the rational number it denotes.  Every `double` operation returns
  its exact result rounded to the nearest IEEE-754 binary64 value, ties to even (`fl`),
  one rounding per operation (no fused multiply-add, no extended precision); a result
  that is not finite is the error result `none`,
  since every computed `double` of the program ends in a conversion to `int`, which is
  undefined for such a value.  A decimal literal is the nearest `double`.
* `std::vector` is a `List`; `operator[]` outside the bounds is undefined behaviour in
  the source and is the error result `none` here.
* `int` is 32 bits wide and `std::size_t` is 64 bits wide.  A conversion of a real number
  to `int` truncates toward zero and is undefined (here `none`) outside the range of `int`.
* `std::cout` is the list of characters written so far.
-/

namespace AsciiArt

/-! ## Data model -/

/-- Colour modes of the rendered image (`enum AsciiColour`). -/
inductive AsciiColour where
  | ascii_default
  | ascii_matrix_green
  | ascii_colour
  deriving DecidableEq, Repr

/-- Selectable brightness mappings (`enum BrightnessMapping`). -/
inductive BrightnessMapping where
  | brightness_average
  | brightness_min_max
  | brightness_luminosity
  deriving DecidableEq, Repr

open AsciiColour BrightnessMapping

/-- A pixel colour as returned by `Magick::ColorRGB`: three channels. -/
structure ColorRGB where
  red : ℚ
  green : ℚ
  blue : ℚ

/-- The part of `Magick::Image` the program reads: its dimensions and the colour of the
pixel at column `x`, row `y` (`pixelColor x y`). -/
structure Image where
  rows : Nat
  columns : Nat
  pixelColor : Nat → Nat → ColorRGB

/-- The channels of every pixel inside the image lie in `[0,1]`. -/
def Image.Normalised (image : Image) : Prop :=
  ∀ x y, x < image.columns → y < image.rows →
    (0 ≤ (image.pixelColor x y).red ∧ (image.pixelColor x y).red ≤ 1) ∧
    (0 ≤ (image.pixelColor x y).green ∧ (image.pixelColor x y).green ≤ 1) ∧
    (0 ≤ (image.pixelColor x y).blue ∧ (image.pixelColor x y).blue ≤ 1)

/-! ## Machine level helpers -/

/-- Truncation of a real value toward zero. -/
def trunc (q : ℚ) : ℤ :=
  if 0 ≤ q then ⌊q⌋ else ⌈q⌉

/-- Conversion of a `double` to `int`: truncation toward zero, undefined when the
truncated value is not representable in 32 bits. -/
def toInt (q : ℚ) : Option ℤ :=
  if -2147483648 ≤ trunc q ∧ trunc q ≤ 2147483647 then some (trunc q) else none

/-- Rounding of a rational to the nearest integer, a tie going to the even neighbour. -/
def roundHalfEven (t : ℚ) : ℤ :=
  if t - ⌊t⌋ < 1 / 2 then ⌊t⌋
  else if 1 / 2 < t - ⌊t⌋ then ⌊t⌋ + 1
  else if ⌊t⌋ % 2 = 0 then ⌊t⌋ else ⌊t⌋ + 1

/-- The binary exponent that fixes the spacing of the doubles around `q`: the exponent of
`q`, and that of the least normal double for smaller values. -/
def binade (q : ℚ) : ℤ :=
  max (Int.log 2 |q|) (-1022)

/-- The spacing of the doubles around `q` (53 significant bits). -/
def ulp (q : ℚ) : ℚ :=
  2 ^ (binade q - 52)

/-- The nearest binary64 value of `q`, ties to even, before the check for overflow. -/
def fl (q : ℚ) : ℚ :=
  roundHalfEven (q / ulp q) * ulp q

/-- The largest finite `double`. -/
def maxDouble : ℚ :=
  (2 ^ 53 - 1) * 2 ^ 971

/-- The `double` result of an operation whose exact result is `q`. -/
def toDouble (q : ℚ) : Option ℚ :=
  if |fl q| ≤ maxDouble then some (fl q) else none

/-- The `double` addition `a + b`. -/
def dadd (a b : ℚ) : Option ℚ :=
  toDouble (a + b)

/-- The `double` multiplication `a * b`. -/
def dmul (a b : ℚ) : Option ℚ :=
  toDouble (a * b)

/-- The `double` division `a / b`; a zero divisor gives no finite result. -/
def ddiv (a b : ℚ) : Option ℚ :=
  if b = 0 then none else toDouble (a / b)

/-- The modulus of `std::size_t` arithmetic. -/
def sizeMod : Nat := 18446744073709551616

/-- Conversion of an `int` to `std::size_t`. -/
def toSize (b : ℤ) : Nat :=
  (b % (sizeMod : ℤ)).toNat

/-- The loop `for (i = 0; i < n; ++i) body`, threading the state through a body that may
fail. -/
def forUpTo {σ : Type} (body : Nat → σ → Option σ) : Nat → σ → Option σ
  | 0, s => some s
  | n + 1, s => (forUpTo body n s).bind (body n)

/-- The read `m[y][x]` of a vector of vectors. -/
def readAt {α : Type} (m : List (List α)) (y x : Nat) : Option α :=
  (m[y]?).bind fun row => row[x]?

/-- The assignment `m[y][x] = v` of a vector of vectors. -/
def writeAt {α : Type} (m : List (List α)) (y x : Nat) (v : α) : Option (List (List α)) :=
  (m[y]?).bind fun row =>
    if x < row.length then some (m.set y (row.set x v)) else none

/-! ## Brightness -/

/-- The function `brightness_map` holds when the matrix is built: the average of the
channels, replaced by the min/max or the luminosity mapping if so selected.  Each
operation is a `double` operation, in the order the expression is parsed; the integers
`255`, `3`, `2` convert exactly and `0.21`, `0.72`, `0.07` are the nearest doubles. -/
def brightness_map (brightness_mapping : BrightnessMapping) (r g b : ℚ) : Option ℚ :=
  if brightness_mapping = brightness_min_max then
    (dadd (max (max r g) b) (min (min r g) b)).bind fun s =>
      (dmul 255 s).bind fun p => ddiv p 2
  else if brightness_mapping = brightness_luminosity then
    (dmul (fl 0.21) r).bind fun t1 =>
      (dmul (fl 0.72) g).bind fun t2 =>
        (dadd t1 t2).bind fun s1 =>
          (dmul (fl 0.07) b).bind fun t3 =>
            (dadd s1 t3).bind fun s2 => dmul 255 s2
  else
    (dadd r g).bind fun s1 =>
      (dadd s1 b).bind fun s2 =>
        (dmul 255 s2).bind fun p => ddiv p 3

/-- The brightness of one pixel as it is stored in the `int` matrix. -/
def pixelBrightness (image : Image) (brightness_mapping : BrightnessMapping) (x y : Nat) :
    Option ℤ :=
  (brightness_map brightness_mapping (image.pixelColor x y).red
    (image.pixelColor x y).green (image.pixelColor x y).blue).bind toInt

/-- The function `constructBrightnessMatrix`: a `rows × columns` matrix of zeros, filled column by
column with the brightness of each pixel. -/
def constructBrightnessMatrix (image : Image) (brightness_mapping : BrightnessMapping) :
    Option (List (List ℤ)) :=
  let brightness_matrix : List (List ℤ) :=
    List.replicate image.rows (List.replicate image.columns 0)
  forUpTo (fun x m =>
    forUpTo (fun y m =>
      (pixelBrightness image brightness_mapping x y).bind fun v => writeAt m y x v)
      image.rows m)
    image.columns brightness_matrix

/-! ## Character ramp -/

/-- The ramp of 65 characters, from darkest to brightest. -/
def characters : List Char :=
  String.toList "\x60^\",:;Il!i~+_-?][\x7d\x7b1)(|\\/tfjrxnuvczXYUJCLQ0OZmwqpdbkhao*#MW&8%B@$"

/-- The ramp position `brightness * (characters.size() - 1) / 255`, computed in
`std::size_t` arithmetic. -/
def rampIndex (brightness : ℤ) : Nat :=
  (toSize brightness * (characters.length - 1) % sizeMod) / 255

/-- The function `convertToASCII`: a character matrix of the size of the brightness matrix (the row
length is that of row 0), filled column by column from the ramp.  The loop bound
`char_matrix[0].size()` is read once, since element writes never resize a row. -/
def convertToASCII (brightness_matrix : List (List ℤ)) : Option (List (List Char)) :=
  (brightness_matrix[0]?).bind fun row0 =>
    let char_matrix : List (List Char) :=
      List.replicate brightness_matrix.length (List.replicate row0.length (Char.ofNat 0))
    (char_matrix[0]?).bind fun crow0 =>
      forUpTo (fun x cm =>
        forUpTo (fun y cm =>
          (readAt brightness_matrix y x).bind fun b =>
            (characters[rampIndex b]?).bind fun c => writeAt cm y x c)
          cm.length cm)
        crow0.length char_matrix

/-! ## Rendering -/

/-- The function `std::to_string` on an `int`. -/
def to_string (n : ℤ) : List Char :=
  (toString n).toList

/-- Escape sequence selecting the matrix-green background and foreground. -/
def matrixGreenPrefix : List Char :=
  String.toList "\x1b[48;2;13;2;8m\x1b[38;2;0;143;17m"

/-- Escape sequence resetting the terminal attributes. -/
def resetSequence : List Char :=
  String.toList "\x1b[0m"

/-- The conversion `static_cast<int>(255 * channel)` of a colour channel. -/
def channelLevel (channel : ℚ) : Option ℤ :=
  (dmul 255 channel).bind toInt

/-- The colour specifier written before a pixel in full-colour mode. -/
def colourSpecifier (image : Image) (x y : Nat) : Option (List Char) :=
  let rgb := image.pixelColor x y
  (channelLevel rgb.red).bind fun red =>
    (channelLevel rgb.green).bind fun green =>
      (channelLevel rgb.blue).bind fun blue =>
        some (String.toList "\x1b[38;2;" ++
          (to_string red ++ String.toList ";" ++ to_string green ++ String.toList ";" ++
            to_string blue ++ String.toList "m"))

/-- The function `printCharImage`: the characters written to the standard output. -/
def printCharImage (char_matrix : List (List Char)) (image : Image)
    (output_colour : AsciiColour) : Option (List Char) :=
  let start : List Char :=
    if output_colour = ascii_matrix_green then matrixGreenPrefix else []
  (forUpTo (fun y out =>
    (char_matrix[y]?).bind fun row =>
      (forUpTo (fun x out =>
        (if output_colour = ascii_colour then
          (colourSpecifier image x y).map fun specifier => out ++ specifier
        else some out).bind fun out =>
          (readAt char_matrix y x).map fun c => out ++ [c, c, c])
        row.length out).map fun out => out ++ ['\n'])
    char_matrix.length start).map fun out => out ++ resetSequence

/-! ## Command line -/

/-- The out-parameters of `parseArguments`. -/
structure Options where
  file_name : String
  output_colour : AsciiColour
  brightness_mapping : BrightnessMapping
  invert : Bool
  deriving DecidableEq, Repr

/-- The entry `argv[i]`; every use is guarded by `i < argc`. -/
def arg (argv : List String) (i : Nat) : String :=
  argv.getD i ""

/-- Body of the option loop of `parseArguments` at position `i`: the new success flag and
out-parameters. -/
def parseOption (argv : List String) (i : Nat) (o : Options) : Bool × Options :=
  let argument := arg argv i
  if argument = "--output-colour" then
    if i + 1 < argv.length then
      let colour_arg := arg argv (i + 1)
      if colour_arg = "matix_green" then
        (true, { o with output_colour := ascii_matrix_green })
      else if colour_arg = "colour" then
        (true, { o with output_colour := ascii_colour })
      else
        (false, o)
    else
      (false, o)
  else if argument = "--brightness-mapping" then
    if i + 1 < argv.length then
      let brightness_arg := arg argv (i + 1)
      if brightness_arg = "min_max" then
        (true, { o with brightness_mapping := brightness_min_max })
      else if brightness_arg = "luminosity" then
        (true, { o with brightness_mapping := brightness_luminosity })
      else if brightness_arg = "average" then
        (true, { o with brightness_mapping := brightness_average })
      else
        (false, o)
    else
      (false, o)
  else if argument = "--invert" then
    (true, { o with invert := true })
  else
    (true, o)

/-- The loop `for (i = ...; i < argc && success; ++i)` of `parseArguments`, started at
position `i`; the first argument bounds the number of iterations. -/
def parseOptions (argv : List String) : Nat → Nat → Bool → Options → Bool × Options
  | 0, _, success, o => (success, o)
  | n + 1, i, success, o =>
    if i < argv.length ∧ success = true then
      parseOptions argv n (i + 1) (parseOption argv i o).1 (parseOption argv i o).2
    else
      (success, o)

/-- The function `parseArguments`: `argc` is the length of `argv`; the result is the success flag and
the out-parameters, which enter with the values of `o`.  The loop runs at most `argc`
times. -/
def parseArguments (argv : List String) (o : Options) : Bool × Options :=
  if 2 ≤ argv.length then
    parseOptions argv argv.length 2 true { o with file_name := arg argv 1 }
  else
    parseOptions argv argv.length 2 false o


/-! ## Rendering as the specification words it -/

/-- Each character of a row written three times in a row. -/
def tripled (row : List Char) : List Char :=
  row.flatMap fun c => [c, c, c]

/-- For each row in order: its characters tripled, followed by one newline. -/
def tripledRows (char_matrix : List (List Char)) : List Char :=
  char_matrix.flatMap fun row => tripled row ++ ['\n']

/-- The text of the default colour mode as the specification describes it: the tripled
rows, then the reset sequence `ESC [ 0 m` at the very end. -/
def defaultRendering (char_matrix : List (List Char)) : List Char :=
  tripledRows char_matrix ++ ['\x1b', '[', '0', 'm']

/-- The three brightness formulas evaluated over exact rationals, without any rounding. -/
def exactBrightness (brightness_mapping : BrightnessMapping) (r g b : ℚ) : ℚ :=
  match brightness_mapping with
  | brightness_average => 255 * (r + g + b) / 3
  | brightness_min_max => 255 * (max (max r g) b + min (min r g) b) / 2
  | brightness_luminosity => 255 * (0.21 * r + 0.72 * g + 0.07 * b)

/-- The colour sequence `ESC [ 38 ; 2 ; R ; G ; B m` of the pixel at column `x`, row `y`,
where `R`, `G`, `B` are the decimal renderings of the channels scaled by 255, rounded to
the nearest double and truncated. -/
def pixelEscape (image : Image) (x y : Nat) : List Char :=
  ['\x1b', '[', '3', '8', ';', '2', ';'] ++
    (Nat.toDigits 10 (trunc (fl (255 * (image.pixelColor x y).red))).toNat ++ [';'] ++
      Nat.toDigits 10 (trunc (fl (255 * (image.pixelColor x y).green))).toNat ++ [';'] ++
      Nat.toDigits 10 (trunc (fl (255 * (image.pixelColor x y).blue))).toNat ++ ['m'])

/-- Row `y` in full colour: before each tripled character the colour sequence of the
pixel in the same column. -/
def colouredRow (image : Image) (y : Nat) (row : List Char) : List Char :=
  row.enum.flatMap fun xc => pixelEscape image xc.1 y ++ [xc.2, xc.2, xc.2]

/-- The coloured rows in order, a newline after each. -/
def colouredRows (image : Image) (char_matrix : List (List Char)) : List Char :=
  char_matrix.enum.flatMap fun yr => colouredRow image yr.1 yr.2 ++ ['\n']

/-- The text of the full-colour mode as the specification describes it. -/
def colourRendering (image : Image) (char_matrix : List (List Char)) : List Char :=
  colouredRows image char_matrix ++ ['\x1b', '[', '0', 'm']

/-! ## Sample inputs -/

/-- A 2 × 3 image (two rows, three columns) with a different colour at every pixel. -/
def sampleImage : Image :=
  ⟨2, 3, fun x y => ⟨(x : ℚ) / 4, (y : ℚ) / 2, 1 / 8⟩⟩

/-- A single pure red pixel. -/
def redPixelImage : Image :=
  ⟨1, 1, fun _ _ => ⟨1, 0, 0⟩⟩

/-- A single grey pixel of level `v`. -/
def greyPixelImage (v : ℚ) : Image :=
  ⟨1, 1, fun _ _ => ⟨v, v, v⟩⟩

/-- A single pixel with channels `1/2`, `5/16`, `1`, all of them doubles. -/
def lumaPixelImage : Image :=
  ⟨1, 1, fun _ _ => ⟨1 / 2, 5 / 16, 1⟩⟩

/-- The double nearest to `11 / 255`, the channel value of the 8-bit level 11. -/
def grey11 : ℚ :=
  3108366801636107 / 72057594037927936

/-- The out-parameters as `main` initialises them. -/
def initialOptions : Options :=
  ⟨"", ascii_default, brightness_average, false⟩

/-! ## Grids -/

/-- A vector of `R` vectors of length `C`. -/
def IsGrid {α : Type} (m : List (List α)) (R C : Nat) : Prop :=
  m.length = R ∧ ∀ row ∈ m, row.length = C

theorem isGrid_replicate {α : Type} (R C : Nat) (a : α) :
    IsGrid (List.replicate R (List.replicate C a)) R C := by
  refine ⟨by simp, ?_⟩
  intro row hrow
  rw [(List.mem_replicate.mp hrow).2]
  simp

theorem readAt_replicate {α : Type} {R C y x : Nat} (a : α) (hy : y < R) (hx : x < C) :
    readAt (List.replicate R (List.replicate C a)) y x = some a := by
  simp [readAt, List.getElem?_replicate, hy, hx]

theorem readAt_isSome {α : Type} {m : List (List α)} {R C y x : Nat} (hm : IsGrid m R C)
    (hy : y < R) (hx : x < C) : ∃ a, readAt m y x = some a := by
  have hlen : y < m.length := by rw [hm.1]; exact hy
  have hrow : (m[y]).length = C := hm.2 _ (List.getElem_mem hlen)
  have hx2 : x < (m[y]).length := by rw [hrow]; exact hx
  exact ⟨(m[y])[x], by simp [readAt, List.getElem?_eq_getElem hlen, List.getElem?_eq_getElem hx2]⟩

/-- An in-bounds assignment succeeds, keeps the shape, stores the value and leaves every
other cell alone. -/
theorem writeAt_spec {α : Type} {m : List (List α)} {R C y x : Nat} (v : α)
    (hm : IsGrid m R C) (hy : y < R) (hx : x < C) :
    ∃ m2, writeAt m y x v = some m2 ∧ IsGrid m2 R C ∧ readAt m2 y x = some v ∧
      ∀ y2 x2, (y2 ≠ y ∨ x2 ≠ x) → readAt m2 y2 x2 = readAt m y2 x2 := by
  have hlen : y < m.length := by rw [hm.1]; exact hy
  have hrow : (m[y]).length = C := hm.2 _ (List.getElem_mem hlen)
  have hx2 : x < (m[y]).length := by rw [hrow]; exact hx
  refine ⟨m.set y ((m[y]).set x v), ?_, ⟨?_, ?_⟩, ?_, ?_⟩
  · simp [writeAt, List.getElem?_eq_getElem hlen, hx2]
  · simp [hm.1]
  · intro row hrow2
    rcases List.mem_or_eq_of_mem_set hrow2 with h | h
    · exact hm.2 _ h
    · rw [h]; simp [hrow]
  · simp [readAt, List.getElem?_set, hlen, hx2]
  · intro y2 x2 hne
    by_cases hy2 : y = y2
    · subst hy2
      have hx3 : x ≠ x2 := by
        rcases hne with h | h
        · exact absurd rfl h
        · exact fun e => h e.symm
      simp [readAt, List.getElem?_set, hlen, hx3, List.getElem?_eq_getElem hlen]
    · simp [readAt, List.getElem?_set, hy2]

/-- One column pass: a loop over the rows whose body writes cell `(y, x)`. -/
theorem forUpTo_column {α : Type} {R C x : Nat} (f : Nat → α)
    (body : Nat → List (List α) → Option (List (List α)))
    (hbody : ∀ y, y < R → ∀ m, IsGrid m R C → ∃ m2, body y m = some m2 ∧ IsGrid m2 R C ∧
      readAt m2 y x = some (f y) ∧
      ∀ y2 x2, (y2 ≠ y ∨ x2 ≠ x) → readAt m2 y2 x2 = readAt m y2 x2)
    (m : List (List α)) (hm : IsGrid m R C) :
    ∀ k, k ≤ R → ∃ m2, forUpTo body k m = some m2 ∧ IsGrid m2 R C ∧
      (∀ y, y < k → readAt m2 y x = some (f y)) ∧
      ∀ y2 x2, (k ≤ y2 ∨ x2 ≠ x) → readAt m2 y2 x2 = readAt m y2 x2 := by
  intro k
  induction k with
  | zero =>
    intro _
    exact ⟨m, rfl, hm, fun y hy => absurd hy (Nat.not_lt_zero y), fun _ _ _ => rfl⟩
  | succ k ih =>
    intro hk
    obtain ⟨m1, hrun, hg1, hdone, hrest⟩ := ih (Nat.le_of_succ_le hk)
    obtain ⟨m2, hstep, hg2, hcell, hother⟩ := hbody k hk m1 hg1
    refine ⟨m2, by simp [forUpTo, hrun, hstep], hg2, ?_, ?_⟩
    · intro y hy
      by_cases hyk : y = k
      · rw [hyk]; exact hcell
      · rw [hother y x (Or.inl hyk)]
        exact hdone y (by omega)
    · intro y2 x2 h
      have hne : y2 ≠ k ∨ x2 ≠ x := by
        rcases h with h | h
        · exact Or.inl (by omega)
        · exact Or.inr h
      rw [hother y2 x2 hne]
      exact hrest y2 x2 (by rcases h with h | h; exact Or.inl (by omega); exact Or.inr h)

/-- The column by column fill: a loop over the columns whose body fills column `x`. -/
theorem forUpTo_fill {α : Type} {R C : Nat} (f : Nat → Nat → α)
    (body : Nat → List (List α) → Option (List (List α)))
    (hbody : ∀ x, x < C → ∀ m, IsGrid m R C → ∃ m2, body x m = some m2 ∧ IsGrid m2 R C ∧
      (∀ y, y < R → readAt m2 y x = some (f x y)) ∧
      ∀ y2 x2, x2 ≠ x → readAt m2 y2 x2 = readAt m y2 x2)
    (m : List (List α)) (hm : IsGrid m R C) :
    ∀ k, k ≤ C → ∃ m2, forUpTo body k m = some m2 ∧ IsGrid m2 R C ∧
      ∀ x y, x < k → y < R → readAt m2 y x = some (f x y) := by
  intro k
  induction k with
  | zero =>
    intro _
    exact ⟨m, rfl, hm, fun x _ hx => absurd hx (Nat.not_lt_zero x)⟩
  | succ k ih =>
    intro hk
    obtain ⟨m1, hrun, hg1, hdone⟩ := ih (Nat.le_of_succ_le hk)
    obtain ⟨m2, hstep, hg2, hcol, hother⟩ := hbody k hk m1 hg1
    refine ⟨m2, by simp [forUpTo, hrun, hstep], hg2, ?_⟩
    intro x y hx hy
    by_cases hxk : x = k
    · rw [hxk]; exact hcol y hy
    · rw [hother y x hxk]
      exact hdone x y (by omega) hy

/-! ## Double arithmetic -/

theorem roundHalfEven_cases (t : ℚ) :
    roundHalfEven t = ⌊t⌋ ∨ roundHalfEven t = ⌊t⌋ + 1 := by
  unfold roundHalfEven
  split
  · exact Or.inl rfl
  · split
    · exact Or.inr rfl
    · split
      · exact Or.inl rfl
      · exact Or.inr rfl

theorem roundHalfEven_nonneg {t : ℚ} (h : 0 ≤ t) : 0 ≤ roundHalfEven t := by
  have hf : 0 ≤ ⌊t⌋ := Int.floor_nonneg.mpr h
  rcases roundHalfEven_cases t with e | e <;> rw [e] <;> omega

/-- The rounded integer is within one half of the value. -/
theorem roundHalfEven_error (t : ℚ) : |(roundHalfEven t : ℚ) - t| ≤ 1 / 2 := by
  have h1 : (⌊t⌋ : ℚ) ≤ t := Int.floor_le t
  have h2 : t < ⌊t⌋ + 1 := Int.lt_floor_add_one t
  rw [abs_le]
  unfold roundHalfEven
  split
  · constructor <;> linarith
  · split
    · push_cast
      constructor <;> linarith
    · split
      · constructor <;> linarith
      · push_cast
        constructor <;> linarith

/-- Away from a tie the rounded integer is the one within one half. -/
theorem roundHalfEven_eq {t : ℚ} (m : ℤ) (h1 : (m : ℚ) - 1 / 2 < t) (h2 : t < m + 1 / 2) :
    roundHalfEven t = m := by
  have he := roundHalfEven_error t
  rw [abs_le] at he
  have hlt : ((roundHalfEven t : ℤ) : ℚ) < m + 1 := by linarith [he.2]
  have hgt : (m : ℚ) - 1 < roundHalfEven t := by linarith [he.1]
  have hlt2 : roundHalfEven t < m + 1 := by exact_mod_cast hlt
  have hgt2 : m - 1 < roundHalfEven t := by exact_mod_cast hgt
  omega

/-- A tie above an odd integer goes up, to the even neighbour. -/
theorem roundHalfEven_tie_odd {t : ℚ} (m : ℤ) (ht : t = m + 1 / 2) (hodd : m % 2 = 1) :
    roundHalfEven t = m + 1 := by
  have hfloor : ⌊t⌋ = m := by
    rw [Int.floor_eq_iff, ht]
    constructor <;> linarith
  have hfrac : t - ⌊t⌋ = 1 / 2 := by
    rw [hfloor, ht]
    ring
  have hne : ¬ (m % 2 = 0) := by omega
  unfold roundHalfEven
  rw [hfrac]
  simp [hfloor, hne]

/-- A tie above an even integer goes down, to that integer. -/
theorem roundHalfEven_tie_even {t : ℚ} (m : ℤ) (ht : t = m + 1 / 2) (heven : m % 2 = 0) :
    roundHalfEven t = m := by
  have hfloor : ⌊t⌋ = m := by
    rw [Int.floor_eq_iff, ht]
    constructor <;> linarith
  have hfrac : t - ⌊t⌋ = 1 / 2 := by
    rw [hfloor, ht]
    ring
  unfold roundHalfEven
  rw [hfrac]
  simp [hfloor, heven]

theorem ulp_pos (q : ℚ) : 0 < ulp q := by
  unfold ulp
  positivity

theorem log_eq {x : ℚ} (e : ℤ) (h1 : (2 : ℚ) ^ e ≤ x) (h2 : x < (2 : ℚ) ^ (e + 1)) :
    Int.log 2 x = e := by
  have hpos : 0 < x := lt_of_lt_of_le (by positivity) h1
  have ha : e ≤ Int.log 2 x :=
    (Int.zpow_le_iff_le_log (by norm_num) hpos).mp (by exact_mod_cast h1)
  have hb : Int.log 2 x < e + 1 :=
    (Int.lt_zpow_iff_log_lt (by norm_num) hpos).mp (by exact_mod_cast h2)
  omega

theorem binade_eq {q : ℚ} (e : ℤ) (he : -1022 ≤ e) (h1 : (2 : ℚ) ^ e ≤ q)
    (h2 : q < (2 : ℚ) ^ (e + 1)) : binade q = e := by
  have hpos : 0 < q := lt_of_lt_of_le (by positivity) h1
  unfold binade
  rw [abs_of_pos hpos, log_eq e h1 h2]
  exact max_eq_left he

/-- Evaluation of the rounding of a positive value in the binade of exponent `e` whose
scaled value lies within one half of the integer `m`. -/
theorem fl_eq {q : ℚ} (e m : ℤ) (he : -1022 ≤ e) (h1 : (2 : ℚ) ^ e ≤ q)
    (h2 : q < (2 : ℚ) ^ (e + 1)) (h3 : (m : ℚ) - 1 / 2 < q / 2 ^ (e - 52))
    (h4 : q / 2 ^ (e - 52) < m + 1 / 2) : fl q = m * 2 ^ (e - 52) := by
  unfold fl ulp
  rw [binade_eq e he h1 h2, roundHalfEven_eq m h3 h4]

/-- Evaluation of the rounding at a tie whose lower neighbour `m` is odd. -/
theorem fl_eq_tie_odd {q : ℚ} (e m : ℤ) (he : -1022 ≤ e) (h1 : (2 : ℚ) ^ e ≤ q)
    (h2 : q < (2 : ℚ) ^ (e + 1)) (h3 : q / 2 ^ (e - 52) = m + 1 / 2) (hodd : m % 2 = 1) :
    fl q = (m + 1) * 2 ^ (e - 52) := by
  unfold fl ulp
  rw [binade_eq e he h1 h2, roundHalfEven_tie_odd m h3 hodd]
  push_cast
  ring

/-- Evaluation of the rounding at a tie whose lower neighbour `m` is even. -/
theorem fl_eq_tie_even {q : ℚ} (e m : ℤ) (he : -1022 ≤ e) (h1 : (2 : ℚ) ^ e ≤ q)
    (h2 : q < (2 : ℚ) ^ (e + 1)) (h3 : q / 2 ^ (e - 52) = m + 1 / 2) (heven : m % 2 = 0) :
    fl q = m * 2 ^ (e - 52) := by
  unfold fl ulp
  rw [binade_eq e he h1 h2, roundHalfEven_tie_even m h3 heven]

theorem fl_zero : fl 0 = 0 := by
  have h : roundHalfEven (0 : ℚ) = 0 := roundHalfEven_eq 0 (by norm_num) (by norm_num)
  simp [fl, h]

theorem fl_nonneg {x : ℚ} (h : 0 ≤ x) : 0 ≤ fl x := by
  unfold fl
  have hu := ulp_pos x
  have hr : (0 : ℚ) ≤ roundHalfEven (x / ulp x) := by
    exact_mod_cast roundHalfEven_nonneg (div_nonneg h (le_of_lt hu))
  positivity

/-- The rounding error below `2 ^ (E + 1)` is at most half the spacing of that binade. -/
theorem fl_error {x : ℚ} (E : ℤ) (hE : -1022 ≤ E) (h : |x| < 2 ^ (E + 1)) :
    |fl x - x| ≤ 2 ^ (E - 53) := by
  rcases eq_or_ne x 0 with hx0 | hxne
  · rw [hx0, fl_zero]
    simp
    positivity
  · have hpos : 0 < |x| := abs_pos.mpr hxne
    have hlog : Int.log 2 |x| < E + 1 :=
      (Int.lt_zpow_iff_log_lt (by norm_num) hpos).mp (by exact_mod_cast h)
    have hb : binade x ≤ E := by
      unfold binade
      exact max_le (by omega) hE
    have hu := ulp_pos x
    have hule : ulp x ≤ 2 ^ (E - 52) := by
      unfold ulp
      exact zpow_le_zpow_right₀ (by norm_num) (by omega)
    have herr := roundHalfEven_error (x / ulp x)
    have heq : fl x - x = ((roundHalfEven (x / ulp x) : ℚ) - x / ulp x) * ulp x := by
      unfold fl
      field_simp
    rw [heq, abs_mul, abs_of_pos hu]
    have h53 : (2 : ℚ) ^ (E - 53) = 1 / 2 * 2 ^ (E - 52) := by
      rw [show E - 52 = (E - 53) + 1 by ring, zpow_add₀ (by norm_num : (2 : ℚ) ≠ 0)]
      ring
    rw [h53]
    exact mul_le_mul herr hule (le_of_lt hu) (by norm_num)

theorem maxDouble_large : (1001 : ℚ) ≤ maxDouble := by
  unfold maxDouble
  norm_num

/-- A nonnegative exact result of at most 1000 gives a finite double, nonnegative and
within `2 ^ (-44)` of the exact result. -/
theorem toDouble_of_small {x : ℚ} (h0 : 0 ≤ x) (h1 : x ≤ 1000) :
    toDouble x = some (fl x) ∧ 0 ≤ fl x ∧ |fl x - x| ≤ 1 / 17592186044416 := by
  have herr : |fl x - x| ≤ 1 / 17592186044416 := by
    have h := fl_error (x := x) 9 (by norm_num) (by
      rw [abs_of_nonneg h0]
      norm_num
      linarith)
    have hpow : (2 : ℚ) ^ ((9 : ℤ) - 53) = 1 / 17592186044416 := by norm_num
    rw [hpow] at h
    exact h
  have hnn := fl_nonneg h0
  refine ⟨?_, hnn, herr⟩
  have hle : |fl x| ≤ maxDouble := by
    rw [abs_of_nonneg hnn]
    have := (abs_le.mp herr).2
    linarith [maxDouble_large]
  simp [toDouble, hle]

/-- Evaluation of an operation whose exact result `q` is positive, lies in the binade of
exponent `e` and rounds to `m` units of that binade. -/
theorem toDouble_eval {q v : ℚ} (e m : ℤ) (he : -1022 ≤ e) (h1 : (2 : ℚ) ^ e ≤ q)
    (h2 : q < (2 : ℚ) ^ (e + 1)) (h3 : (m : ℚ) - 1 / 2 < q / 2 ^ (e - 52))
    (h4 : q / 2 ^ (e - 52) < m + 1 / 2) (hv : v = m * 2 ^ (e - 52)) (hq : q ≤ 1000) :
    toDouble q = some v := by
  have hpos : 0 < q := lt_of_lt_of_le (by positivity) h1
  rw [(toDouble_of_small (le_of_lt hpos) hq).1, fl_eq e m he h1 h2 h3 h4, hv]

theorem toDouble_eval_tie_odd {q v : ℚ} (e m : ℤ) (he : -1022 ≤ e) (h1 : (2 : ℚ) ^ e ≤ q)
    (h2 : q < (2 : ℚ) ^ (e + 1)) (h3 : q / 2 ^ (e - 52) = m + 1 / 2) (hodd : m % 2 = 1)
    (hv : v = (m + 1) * 2 ^ (e - 52)) (hq : q ≤ 1000) : toDouble q = some v := by
  have hpos : 0 < q := lt_of_lt_of_le (by positivity) h1
  rw [(toDouble_of_small (le_of_lt hpos) hq).1, fl_eq_tie_odd e m he h1 h2 h3 hodd, hv]

theorem toDouble_eval_tie_even {q v : ℚ} (e m : ℤ) (he : -1022 ≤ e) (h1 : (2 : ℚ) ^ e ≤ q)
    (h2 : q < (2 : ℚ) ^ (e + 1)) (h3 : q / 2 ^ (e - 52) = m + 1 / 2) (heven : m % 2 = 0)
    (hv : v = m * 2 ^ (e - 52)) (hq : q ≤ 1000) : toDouble q = some v := by
  have hpos : 0 < q := lt_of_lt_of_le (by positivity) h1
  rw [(toDouble_of_small (le_of_lt hpos) hq).1, fl_eq_tie_even e m he h1 h2 h3 heven, hv]

theorem toDouble_zero {q : ℚ} (h : q = 0) : toDouble q = some 0 := by
  rw [h, (toDouble_of_small (le_refl 0) (by norm_num)).1, fl_zero]

/-! ## Brightness values -/

theorem trunc_of_nonneg {q : ℚ} (h : 0 ≤ q) : trunc q = ⌊q⌋ := by
  simp [trunc, h]

theorem trunc_range {q : ℚ} (h0 : 0 ≤ q) (h1 : q < 256) :
    0 ≤ trunc q ∧ trunc q ≤ 255 := by
  rw [trunc_of_nonneg h0]
  constructor
  · exact Int.floor_nonneg.mpr h0
  · have h : ⌊q⌋ < 256 := Int.floor_lt.mpr (by exact_mod_cast h1)
    omega

theorem toInt_of_range {q : ℚ} (h0 : 0 ≤ q) (h1 : q < 256) : toInt q = some (trunc q) := by
  obtain ⟨ha, hb⟩ := trunc_range h0 h1
  have h : -2147483648 ≤ trunc q ∧ trunc q ≤ 2147483647 := ⟨by omega, by omega⟩
  simp [toInt, h]

theorem toInt_eq_some {q : ℚ} {v : ℤ} (h : toInt q = some v) : v = trunc q := by
  unfold toInt at h
  split at h
  · exact (Option.some.inj h).symm
  · exact absurd h (by simp)

/-- Truncations of two nonnegative values less than one apart differ by at most one. -/
theorem trunc_near {a b : ℚ} (ha : 0 ≤ a) (hb : 0 ≤ b) (h : |a - b| < 1) :
    |trunc a - trunc b| ≤ 1 := by
  rw [trunc_of_nonneg ha, trunc_of_nonneg hb]
  obtain ⟨hl, hu⟩ := abs_lt.mp h
  have a1 : (⌊a⌋ : ℚ) ≤ a := Int.floor_le a
  have a2 : a < ⌊a⌋ + 1 := Int.lt_floor_add_one a
  have b1 : (⌊b⌋ : ℚ) ≤ b := Int.floor_le b
  have b2 : b < ⌊b⌋ + 1 := Int.lt_floor_add_one b
  have hab : (⌊a⌋ : ℚ) < ⌊b⌋ + 2 := by linarith
  have hba : (⌊b⌋ : ℚ) < ⌊a⌋ + 2 := by linarith
  have hab2 : ⌊a⌋ < ⌊b⌋ + 2 := by exact_mod_cast hab
  have hba2 : ⌊b⌋ < ⌊a⌋ + 2 := by exact_mod_cast hba
  rw [abs_le]
  constructor <;> omega

/-- The exact formulas stay within `[0,255]` on channels in `[0,1]`. -/
theorem exactBrightness_range (m : BrightnessMapping) {r g b : ℚ}
    (hr : 0 ≤ r ∧ r ≤ 1) (hg : 0 ≤ g ∧ g ≤ 1) (hb : 0 ≤ b ∧ b ≤ 1) :
    0 ≤ exactBrightness m r g b ∧ exactBrightness m r g b ≤ 255 := by
  obtain ⟨hr0, hr1⟩ := hr
  obtain ⟨hg0, hg1⟩ := hg
  obtain ⟨hb0, hb1⟩ := hb
  cases m
  · simp only [exactBrightness]
    constructor
    · positivity
    · linarith
  · simp only [exactBrightness]
    have hmax0 : 0 ≤ max (max r g) b := le_max_of_le_right hb0
    have hmax1 : max (max r g) b ≤ 1 := max_le (max_le hr1 hg1) hb1
    have hmin0 : 0 ≤ min (min r g) b := le_min (le_min hr0 hg0) hb0
    have hmin1 : min (min r g) b ≤ 1 := min_le_of_right_le hb1
    constructor
    · positivity
    · linarith
  · simp only [exactBrightness]
    norm_num
    constructor
    · positivity
    · linarith

/-- The average mapping in doubles: its value, its sign and its distance from the exact
formula, on channels in `[0,1]`. -/
theorem brightness_map_average {r g b : ℚ} (hr : 0 ≤ r ∧ r ≤ 1) (hg : 0 ≤ g ∧ g ≤ 1)
    (hb : 0 ≤ b ∧ b ≤ 1) :
    brightness_map brightness_average r g b
      = some (fl (fl (255 * fl (fl (r + g) + b)) / 3)) ∧
    0 ≤ fl (fl (255 * fl (fl (r + g) + b)) / 3) ∧
    |fl (fl (255 * fl (fl (r + g) + b)) / 3) - exactBrightness brightness_average r g b|
      ≤ 1 / 1073741824 := by
  obtain ⟨hr0, hr1⟩ := hr
  obtain ⟨hg0, hg1⟩ := hg
  obtain ⟨hb0, hb1⟩ := hb
  obtain ⟨e1, n1, d1⟩ := toDouble_of_small (x := r + g) (by linarith) (by linarith)
  obtain ⟨l1, u1⟩ := abs_le.mp d1
  obtain ⟨e2, n2, d2⟩ := toDouble_of_small (x := fl (r + g) + b) (by linarith)
    (by linarith)
  obtain ⟨l2, u2⟩ := abs_le.mp d2
  obtain ⟨e3, n3, d3⟩ := toDouble_of_small (x := 255 * fl (fl (r + g) + b))
    (by linarith) (by linarith)
  obtain ⟨l3, u3⟩ := abs_le.mp d3
  obtain ⟨e4, n4, d4⟩ := toDouble_of_small (x := fl (255 * fl (fl (r + g) + b)) / 3)
    (by linarith) (by linarith)
  obtain ⟨l4, u4⟩ := abs_le.mp d4
  refine ⟨?_, n4, ?_⟩
  · have h3 : ¬ ((3 : ℚ) = 0) := by norm_num
    have ha : ¬ (brightness_average = brightness_min_max) := by decide
    have hb2 : ¬ (brightness_average = brightness_luminosity) := by decide
    simp only [brightness_map, if_neg ha, if_neg hb2, dadd, dmul, ddiv, e1, e2, e3, e4,
      Option.some_bind, if_neg h3]
  · simp only [exactBrightness]
    rw [abs_le]
    constructor <;> linarith

/-- The min/max mapping in doubles, on channels in `[0,1]`. -/
theorem brightness_map_min_max {r g b : ℚ} (hr : 0 ≤ r ∧ r ≤ 1) (hg : 0 ≤ g ∧ g ≤ 1)
    (hb : 0 ≤ b ∧ b ≤ 1) :
    brightness_map brightness_min_max r g b
      = some (fl (fl (255 * fl (max (max r g) b + min (min r g) b)) / 2)) ∧
    0 ≤ fl (fl (255 * fl (max (max r g) b + min (min r g) b)) / 2) ∧
    |fl (fl (255 * fl (max (max r g) b + min (min r g) b)) / 2)
        - exactBrightness brightness_min_max r g b| ≤ 1 / 1073741824 := by
  obtain ⟨hr0, hr1⟩ := hr
  obtain ⟨hg0, hg1⟩ := hg
  obtain ⟨hb0, hb1⟩ := hb
  have hmax0 : 0 ≤ max (max r g) b := le_max_of_le_right hb0
  have hmax1 : max (max r g) b ≤ 1 := max_le (max_le hr1 hg1) hb1
  have hmin0 : 0 ≤ min (min r g) b := le_min (le_min hr0 hg0) hb0
  have hmin1 : min (min r g) b ≤ 1 := min_le_of_right_le hb1
  obtain ⟨e1, n1, d1⟩ := toDouble_of_small (x := max (max r g) b + min (min r g) b)
    (by linarith) (by linarith)
  obtain ⟨l1, u1⟩ := abs_le.mp d1
  obtain ⟨e2, n2, d2⟩ :=
    toDouble_of_small (x := 255 * fl (max (max r g) b + min (min r g) b))
      (by linarith) (by linarith)
  obtain ⟨l2, u2⟩ := abs_le.mp d2
  obtain ⟨e3, n3, d3⟩ :=
    toDouble_of_small (x := fl (255 * fl (max (max r g) b + min (min r g) b)) / 2)
      (by linarith) (by linarith)
  obtain ⟨l3, u3⟩ := abs_le.mp d3
  refine ⟨?_, n3, ?_⟩
  · have h2 : ¬ ((2 : ℚ) = 0) := by norm_num
    simp only [brightness_map, if_true, dadd, dmul, ddiv, e1, e2, e3, Option.some_bind,
      if_neg h2]
  · simp only [exactBrightness]
    rw [abs_le]
    constructor <;> linarith

/-- A rounded weight times a channel in `[0,1]`. -/
theorem weight_mul {w c r : ℚ} (hw0 : 0 ≤ w) (hw : |w - c| ≤ 1 / 17592186044416)
    (hr0 : 0 ≤ r) (hr1 : r ≤ 1) :
    0 ≤ w * r ∧ w * r ≤ w ∧ |w * r - c * r| ≤ 1 / 17592186044416 := by
  refine ⟨mul_nonneg hw0 hr0, mul_le_of_le_one_right hw0 hr1, ?_⟩
  have h : w * r - c * r = (w - c) * r := by ring
  rw [h, abs_mul, abs_of_nonneg hr0]
  calc |w - c| * r ≤ 1 / 17592186044416 * 1 :=
        mul_le_mul hw hr1 hr0 (by norm_num)
    _ = 1 / 17592186044416 := by ring

/-- The chain of six rounded operations of the luminosity mapping, for rounded weights
`w1`, `w2`, `w3` of exact weights `c1`, `c2`, `c3` that sum to one. -/
theorem luminosity_chain {w1 w2 w3 c1 c2 c3 r g b : ℚ}
    (hw1 : 0 ≤ w1) (hd1 : |w1 - c1| ≤ 1 / 17592186044416)
    (hw2 : 0 ≤ w2) (hd2 : |w2 - c2| ≤ 1 / 17592186044416)
    (hw3 : 0 ≤ w3) (hd3 : |w3 - c3| ≤ 1 / 17592186044416)
    (hc : c1 + c2 + c3 = 1) (hr : 0 ≤ r ∧ r ≤ 1) (hg : 0 ≤ g ∧ g ≤ 1)
    (hb : 0 ≤ b ∧ b ≤ 1) :
    ((dmul w1 r).bind fun t1 =>
      (dmul w2 g).bind fun t2 =>
        (dadd t1 t2).bind fun s1 =>
          (dmul w3 b).bind fun t3 =>
            (dadd s1 t3).bind fun s2 => dmul 255 s2)
      = some (fl (255 * fl (fl (fl (w1 * r) + fl (w2 * g)) + fl (w3 * b)))) ∧
    0 ≤ fl (255 * fl (fl (fl (w1 * r) + fl (w2 * g)) + fl (w3 * b))) ∧
    |fl (255 * fl (fl (fl (w1 * r) + fl (w2 * g)) + fl (w3 * b)))
        - 255 * (c1 * r + c2 * g + c3 * b)| ≤ 1 / 1073741824 := by
  obtain ⟨hr0, hr1⟩ := hr
  obtain ⟨hg0, hg1⟩ := hg
  obtain ⟨hb0, hb1⟩ := hb
  obtain ⟨wrl, wru⟩ := abs_le.mp hd1
  obtain ⟨wgl, wgu⟩ := abs_le.mp hd2
  obtain ⟨wbl, wbu⟩ := abs_le.mp hd3
  obtain ⟨pr0, pr1, prd⟩ := weight_mul hw1 hd1 hr0 hr1
  obtain ⟨pg0, pg1, pgd⟩ := weight_mul hw2 hd2 hg0 hg1
  obtain ⟨pb0, pb1, pbd⟩ := weight_mul hw3 hd3 hb0 hb1
  obtain ⟨prl, pru⟩ := abs_le.mp prd
  obtain ⟨pgl, pgu⟩ := abs_le.mp pgd
  obtain ⟨pbl, pbu⟩ := abs_le.mp pbd
  obtain ⟨e1, n1, d1⟩ := toDouble_of_small (x := w1 * r) pr0 (by linarith)
  obtain ⟨l1, u1⟩ := abs_le.mp d1
  obtain ⟨e2, n2, d2⟩ := toDouble_of_small (x := w2 * g) pg0 (by linarith)
  obtain ⟨l2, u2⟩ := abs_le.mp d2
  obtain ⟨e3, n3, d3⟩ := toDouble_of_small (x := fl (w1 * r) + fl (w2 * g))
    (by linarith) (by linarith)
  obtain ⟨l3, u3⟩ := abs_le.mp d3
  obtain ⟨e4, n4, d4⟩ := toDouble_of_small (x := w3 * b) pb0 (by linarith)
  obtain ⟨l4, u4⟩ := abs_le.mp d4
  obtain ⟨e5, n5, d5⟩ :=
    toDouble_of_small (x := fl (fl (w1 * r) + fl (w2 * g)) + fl (w3 * b))
      (by linarith) (by linarith)
  obtain ⟨l5, u5⟩ := abs_le.mp d5
  obtain ⟨e6, n6, d6⟩ :=
    toDouble_of_small (x := 255 * fl (fl (fl (w1 * r) + fl (w2 * g)) + fl (w3 * b)))
      (by linarith) (by linarith)
  obtain ⟨l6, u6⟩ := abs_le.mp d6
  refine ⟨?_, n6, ?_⟩
  · simp only [dadd, dmul, e1, e2, e3, e4, e5, e6, Option.some_bind]
  · rw [abs_le]
    constructor <;> linarith

/-- The luminosity mapping in doubles, on channels in `[0,1]`. -/
theorem brightness_map_luminosity {r g b : ℚ} (hr : 0 ≤ r ∧ r ≤ 1)
    (hg : 0 ≤ g ∧ g ≤ 1) (hb : 0 ≤ b ∧ b ≤ 1) :
    brightness_map brightness_luminosity r g b
      = some (fl (255 * fl (fl (fl (fl 0.21 * r) + fl (fl 0.72 * g)) + fl (fl 0.07 * b)))) ∧
    0 ≤ fl (255 * fl (fl (fl (fl 0.21 * r) + fl (fl 0.72 * g)) + fl (fl 0.07 * b))) ∧
    |fl (255 * fl (fl (fl (fl 0.21 * r) + fl (fl 0.72 * g)) + fl (fl 0.07 * b)))
        - exactBrightness brightness_luminosity r g b| ≤ 1 / 1073741824 := by
  obtain ⟨_, wr0, wrd⟩ := toDouble_of_small (x := (0.21 : ℚ)) (by norm_num) (by norm_num)
  obtain ⟨_, wg0, wgd⟩ := toDouble_of_small (x := (0.72 : ℚ)) (by norm_num) (by norm_num)
  obtain ⟨_, wb0, wbd⟩ := toDouble_of_small (x := (0.07 : ℚ)) (by norm_num) (by norm_num)
  have hsum : (0.21 : ℚ) + 0.72 + 0.07 = 1 := by norm_num
  obtain ⟨h1, h2, h3⟩ := luminosity_chain wr0 wrd wg0 wgd wb0 wbd hsum hr hg hb
  have ha : ¬ (brightness_luminosity = brightness_min_max) := by decide
  refine ⟨?_, h2, h3⟩
  simp only [brightness_map, if_neg ha, if_true]
  exact h1

/-- On channels in `[0,1]` every mapping yields a finite double in `[0,256)` that lies
within `2 ^ (-30)` of the exact formula. -/
theorem brightness_map_spec (m : BrightnessMapping) {r g b : ℚ}
    (hr : 0 ≤ r ∧ r ≤ 1) (hg : 0 ≤ g ∧ g ≤ 1) (hb : 0 ≤ b ∧ b ≤ 1) :
    ∃ q, brightness_map m r g b = some q ∧ 0 ≤ q ∧ q < 256 ∧
      |q - exactBrightness m r g b| ≤ 1 / 1073741824 := by
  obtain ⟨_, hx1⟩ := exactBrightness_range m hr hg hb
  cases m
  · obtain ⟨h1, h2, h3⟩ := brightness_map_average hr hg hb
    exact ⟨_, h1, h2, by linarith [(abs_le.mp h3).2], h3⟩
  · obtain ⟨h1, h2, h3⟩ := brightness_map_min_max hr hg hb
    exact ⟨_, h1, h2, by linarith [(abs_le.mp h3).2], h3⟩
  · obtain ⟨h1, h2, h3⟩ := brightness_map_luminosity hr hg hb
    exact ⟨_, h1, h2, by linarith [(abs_le.mp h3).2], h3⟩

/-- On an image with channels in `[0,1]` the stored brightness of a pixel is the
truncation of the double the mapping returns. -/
theorem pixelBrightness_normalised {image : Image} (h : image.Normalised)
    (m : BrightnessMapping) {x y : Nat} (hx : x < image.columns) (hy : y < image.rows) :
    ∃ q, brightness_map m (image.pixelColor x y).red (image.pixelColor x y).green
        (image.pixelColor x y).blue = some q ∧
      pixelBrightness image m x y = some (trunc q) ∧ 0 ≤ q ∧ q < 256 ∧
      |q - exactBrightness m (image.pixelColor x y).red (image.pixelColor x y).green
        (image.pixelColor x y).blue| ≤ 1 / 1073741824 := by
  obtain ⟨hr, hg, hb⟩ := h x y hx hy
  obtain ⟨q, hq, h0, h1, hnear⟩ := brightness_map_spec m hr hg hb
  refine ⟨q, hq, ?_, h0, h1, hnear⟩
  simp only [pixelBrightness, hq, Option.some_bind]
  exact toInt_of_range h0 h1

/-- If every pixel of the image has a representable brightness `f x y`, the matrix is
built, has the dimensions of the image, and holds `f x y` at row `y`, column `x`. -/
theorem constructBrightnessMatrix_fill (image : Image) (m : BrightnessMapping)
    (f : Nat → Nat → ℤ)
    (hf : ∀ x y, x < image.columns → y < image.rows →
      pixelBrightness image m x y = some (f x y)) :
    ∃ M, constructBrightnessMatrix image m = some M ∧ IsGrid M image.rows image.columns ∧
      ∀ x y, x < image.columns → y < image.rows → readAt M y x = some (f x y) := by
  unfold constructBrightnessMatrix
  apply forUpTo_fill f _ _ _ (isGrid_replicate _ _ _) image.columns (Nat.le_refl _)
  intro x hx M hM
  obtain ⟨M2, h1, h2, h3, h4⟩ :=
    forUpTo_column (f x)
      (fun y m2 => (pixelBrightness image m x y).bind fun v => writeAt m2 y x v)
      (fun y hy M1 hM1 => by
        simp only [hf x y hx hy, Option.some_bind]
        exact writeAt_spec (f x y) hM1 hy hx)
      M hM image.rows (Nat.le_refl _)
  exact ⟨M2, h1, h2, h3, fun y2 x2 hne => h4 y2 x2 (Or.inr hne)⟩

theorem constructBrightnessMatrix_normalised (image : Image) (m : BrightnessMapping)
    (h : image.Normalised) :
    ∃ M, constructBrightnessMatrix image m = some M ∧ IsGrid M image.rows image.columns ∧
      ∀ x y, x < image.columns → y < image.rows →
        ∃ q, brightness_map m (image.pixelColor x y).red (image.pixelColor x y).green
            (image.pixelColor x y).blue = some q ∧
          readAt M y x = some (trunc q) ∧ 0 ≤ q ∧ q < 256 ∧
          |q - exactBrightness m (image.pixelColor x y).red (image.pixelColor x y).green
            (image.pixelColor x y).blue| ≤ 1 / 1073741824 := by
  obtain ⟨M, hM, hgrid, hcell⟩ :=
    constructBrightnessMatrix_fill image m
      (fun x y => (pixelBrightness image m x y).getD 0)
      (fun x y hx hy => by
        obtain ⟨q, _, hp, _⟩ := pixelBrightness_normalised h m hx hy
        simp [hp])
  refine ⟨M, hM, hgrid, fun x y hx hy => ?_⟩
  obtain ⟨q, hq, hp, h0, h1, hnear⟩ := pixelBrightness_normalised h m hx hy
  refine ⟨q, hq, ?_, h0, h1, hnear⟩
  rw [hcell x y hx hy, hp]
  rfl

/-- A loop whose body fails at step `k` fails once it runs past `k`. -/
theorem forUpTo_none {σ : Type} (body : Nat → σ → Option σ) (k : Nat)
    (hk : ∀ s, body k s = none) : ∀ n, k < n → ∀ s, forUpTo body n s = none := by
  intro n
  induction n with
  | zero => intro h; omega
  | succ n ih =>
    intro h s
    rw [forUpTo]
    by_cases hkn : k = n
    · cases hrun : forUpTo body n s with
      | none => rfl
      | some s2 =>
        rw [Option.some_bind, ← hkn]
        exact hk s2
    · rw [ih (by omega) s]
      rfl

theorem toDouble_eq_some {x y : ℚ} (h : toDouble x = some y) : y = fl x := by
  unfold toDouble at h
  split at h
  · exact (Option.some.inj h).symm
  · exact absurd h (by simp)

/-- Whenever a mapping returns a double, it is the selected formula with every operation
rounded. -/
theorem brightness_map_eq_some {m : BrightnessMapping} {r g b q : ℚ}
    (h : brightness_map m r g b = some q) :
    q = if m = brightness_min_max then
        fl (fl (255 * fl (max (max r g) b + min (min r g) b)) / 2)
      else if m = brightness_luminosity then
        fl (255 * fl (fl (fl (fl 0.21 * r) + fl (fl 0.72 * g)) + fl (fl 0.07 * b)))
      else
        fl (fl (255 * fl (fl (r + g) + b)) / 3) := by
  cases m
  · have ha : ¬ (brightness_average = brightness_min_max) := by decide
    have hb : ¬ (brightness_average = brightness_luminosity) := by decide
    have h3 : ¬ ((3 : ℚ) = 0) := by norm_num
    simp only [brightness_map, if_neg ha, if_neg hb, dadd, dmul, ddiv, if_neg h3] at h
    obtain ⟨s1, e1, h⟩ := Option.bind_eq_some.mp h
    obtain ⟨s2, e2, h⟩ := Option.bind_eq_some.mp h
    obtain ⟨p, e3, h⟩ := Option.bind_eq_some.mp h
    rw [if_neg ha, if_neg hb, toDouble_eq_some h, toDouble_eq_some e3, toDouble_eq_some e2,
      toDouble_eq_some e1]
  · have h2 : ¬ ((2 : ℚ) = 0) := by norm_num
    simp only [brightness_map, if_true, dadd, dmul, ddiv, if_neg h2] at h
    obtain ⟨s1, e1, h⟩ := Option.bind_eq_some.mp h
    obtain ⟨p, e2, h⟩ := Option.bind_eq_some.mp h
    rw [if_pos rfl, toDouble_eq_some h, toDouble_eq_some e2, toDouble_eq_some e1]
  · have ha : ¬ (brightness_luminosity = brightness_min_max) := by decide
    simp only [brightness_map, if_neg ha, if_true, dadd, dmul] at h
    obtain ⟨t1, e1, h⟩ := Option.bind_eq_some.mp h
    obtain ⟨t2, e2, h⟩ := Option.bind_eq_some.mp h
    obtain ⟨s1, e3, h⟩ := Option.bind_eq_some.mp h
    obtain ⟨t3, e4, h⟩ := Option.bind_eq_some.mp h
    obtain ⟨s2, e5, h⟩ := Option.bind_eq_some.mp h
    rw [if_neg ha, if_pos rfl, toDouble_eq_some h, toDouble_eq_some e5, toDouble_eq_some e4,
      toDouble_eq_some e3, toDouble_eq_some e2, toDouble_eq_some e1]

/-- If the matrix is built, every pixel had a finite brightness that converts to `int`,
and the matrix holds its truncation at the pixel's row and column. -/
theorem constructBrightnessMatrix_cells {image : Image} {m : BrightnessMapping}
    {M : List (List ℤ)} (hM : constructBrightnessMatrix image m = some M) :
    IsGrid M image.rows image.columns ∧
      ∀ x y, x < image.columns → y < image.rows →
        ∃ q, brightness_map m (image.pixelColor x y).red (image.pixelColor x y).green
            (image.pixelColor x y).blue = some q ∧ readAt M y x = some (trunc q) := by
  have hdef : ∀ x y, x < image.columns → y < image.rows →
      ∃ v, pixelBrightness image m x y = some v := by
    intro x y hx hy
    cases hp : pixelBrightness image m x y with
    | some v => exact ⟨v, rfl⟩
    | none =>
      exfalso
      have hnone : constructBrightnessMatrix image m = none := by
        unfold constructBrightnessMatrix
        apply forUpTo_none _ x _ image.columns hx
        intro s
        apply forUpTo_none _ y _ image.rows hy
        intro s2
        simp only [hp, Option.none_bind]
      rw [hnone] at hM
      exact absurd hM (by simp)
  obtain ⟨M2, hM2, hgrid, hcell⟩ :=
    constructBrightnessMatrix_fill image m
      (fun x y => (pixelBrightness image m x y).getD 0)
      (fun x y hx hy => by
        obtain ⟨v, hv⟩ := hdef x y hx hy
        simp [hv])
  have hMM : M2 = M := Option.some.inj (hM2.symm.trans hM)
  rw [hMM] at hgrid hcell
  refine ⟨hgrid, fun x y hx hy => ?_⟩
  obtain ⟨v, hv⟩ := hdef x y hx hy
  obtain ⟨q, hq, hqv⟩ := Option.bind_eq_some.mp hv
  refine ⟨q, hq, ?_⟩
  rw [hcell x y hx hy, hv, toInt_eq_some hqv]
  rfl

/-! ## Ramp positions -/

theorem characters_length : characters.length = 65 := by
  decide

theorem toSize_of_nonneg {b : ℤ} (h0 : 0 ≤ b) (h1 : b ≤ 255) : toSize b = b.toNat := by
  unfold toSize sizeMod
  rw [Int.emod_eq_of_lt h0 (by norm_num; omega)]

/-- For a brightness in `0..255` the unsigned arithmetic does not wrap. -/
theorem rampIndex_of_range {b : ℤ} (h0 : 0 ≤ b) (h1 : b ≤ 255) :
    rampIndex b = b.toNat * 64 / 255 := by
  unfold rampIndex
  rw [toSize_of_nonneg h0 h1, characters_length]
  have h : b.toNat * (65 - 1) < sizeMod := by
    unfold sizeMod
    omega
  rw [Nat.mod_eq_of_lt h]

theorem rampIndex_le {b : ℤ} (h0 : 0 ≤ b) (h1 : b ≤ 255) : rampIndex b ≤ 64 := by
  rw [rampIndex_of_range h0 h1]
  omega

theorem characters_lookup {i : Nat} (h : i ≤ 64) :
    ∃ c, characters[i]? = some c ∧ c ∈ characters := by
  have hlt : i < characters.length := by rw [characters_length]; omega
  exact ⟨characters[i], List.getElem?_eq_getElem hlt, List.getElem_mem hlt⟩

/-- On a rectangular brightness matrix with at least one row, all of whose cells map to
a ramp position inside the ramp, the character matrix is built, has the same dimensions,
and holds at each cell the ramp character of the brightness at that cell. -/
theorem convertToASCII_fill {M : List (List ℤ)} {R C : Nat} (hM : IsGrid M R C)
    (hR : 1 ≤ R) (g : Nat → Nat → Char)
    (hg : ∀ x y, x < C → y < R →
      ∃ b, readAt M y x = some b ∧ characters[rampIndex b]? = some (g x y)) :
    ∃ G, convertToASCII M = some G ∧ IsGrid G R C ∧
      ∀ x y, x < C → y < R → readAt G y x = some (g x y) := by
  have hlen : 0 < M.length := by rw [hM.1]; exact hR
  have hrow0 : (M[0]).length = C := hM.2 _ (List.getElem_mem hlen)
  have hcm : IsGrid (List.replicate M.length (List.replicate (M[0]).length (Char.ofNat 0)))
      R C := by
    rw [hM.1, hrow0]
    exact isGrid_replicate R C _
  have hcm0 : (List.replicate M.length (List.replicate (M[0]).length (Char.ofNat 0)))[0]?
      = some (List.replicate C (Char.ofNat 0)) := by
    rw [List.getElem?_replicate, hrow0]
    simp [hlen]
  unfold convertToASCII
  simp only [List.getElem?_eq_getElem hlen, Option.some_bind, hcm0, List.length_replicate]
  apply forUpTo_fill g _ _ _ hcm C (Nat.le_refl _)
  intro x hx cm hcmg
  rw [hcmg.1]
  obtain ⟨G2, h1, h2, h3, h4⟩ :=
    forUpTo_column (g x)
      (fun y cm2 => (readAt M y x).bind fun b =>
        (characters[rampIndex b]?).bind fun c => writeAt cm2 y x c)
      (fun y hy cm1 hcm1 => by
        obtain ⟨b, hb1, hb2⟩ := hg x y hx hy
        simp only [hb1, hb2, Option.some_bind]
        exact writeAt_spec (g x y) hcm1 hy hx)
      cm hcmg R (Nat.le_refl _)
  exact ⟨G2, h1, h2, h3, fun y2 x2 hne => h4 y2 x2 (Or.inr hne)⟩

/-! ## Sample inputs are well formed -/

theorem sampleImage_normalised : sampleImage.Normalised := by
  intro x y hx hy
  have hx3 : x < 3 := hx
  have hy2 : y < 2 := hy
  simp only [sampleImage]
  interval_cases x <;> interval_cases y <;> norm_num

theorem redPixelImage_normalised : redPixelImage.Normalised := by
  intro x y _ _
  simp only [redPixelImage]
  norm_num

theorem grid_one_by_one {α : Type} {M : List (List α)} {v : α} (hM : IsGrid M 1 1)
    (hv : readAt M 0 0 = some v) : M = [[v]] := by
  obtain ⟨hlen, hrows⟩ := hM
  match M, hlen, hrows, hv with
  | [row], _, hrows, hv =>
    have hr : row.length = 1 := hrows row (by simp)
    match row, hr, hv with
    | [a], _, hv =>
      simp [readAt] at hv
      rw [hv]

/-! ## The brightness matrix -/

/-- The average mapping from the results of its four operations. -/
theorem average_eval {r g b s1 s2 p q : ℚ} (h1 : toDouble (r + g) = some s1)
    (h2 : toDouble (s1 + b) = some s2) (h3 : toDouble (255 * s2) = some p)
    (h4 : toDouble (p / 3) = some q) : brightness_map brightness_average r g b = some q := by
  have h : ¬ ((3 : ℚ) = 0) := by norm_num
  have ha : ¬ (brightness_average = brightness_min_max) := by decide
  have hb : ¬ (brightness_average = brightness_luminosity) := by decide
  simp only [brightness_map, if_neg ha, if_neg hb, dadd, dmul, ddiv, h1, h2, h3, h4,
    Option.some_bind, if_neg h]

/-- The min/max mapping from the results of its three operations. -/
theorem min_max_eval {r g b hi lo s p q : ℚ} (hmax : max (max r g) b = hi)
    (hmin : min (min r g) b = lo) (h1 : toDouble (hi + lo) = some s)
    (h2 : toDouble (255 * s) = some p) (h3 : toDouble (p / 2) = some q) :
    brightness_map brightness_min_max r g b = some q := by
  have h : ¬ ((2 : ℚ) = 0) := by norm_num
  simp only [brightness_map, if_true, dadd, dmul, ddiv, hmax, hmin, h1, h2, h3,
    Option.some_bind, if_neg h]

/-- The luminosity mapping from its three weights and the results of its six
operations. -/
theorem luminosity_eval {r g b w1 w2 w3 t1 t2 s1 t3 s2 p : ℚ} (hw1 : fl 0.21 = w1)
    (hw2 : fl 0.72 = w2) (hw3 : fl 0.07 = w3) (h1 : toDouble (w1 * r) = some t1)
    (h2 : toDouble (w2 * g) = some t2) (h3 : toDouble (t1 + t2) = some s1)
    (h4 : toDouble (w3 * b) = some t3) (h5 : toDouble (s1 + t3) = some s2)
    (h6 : toDouble (255 * s2) = some p) :
    brightness_map brightness_luminosity r g b = some p := by
  have ha : ¬ (brightness_luminosity = brightness_min_max) := by decide
  simp only [brightness_map, if_neg ha, if_true, dadd, dmul, hw1, hw2, hw3, h1, h2, h3, h4,
    h5, h6, Option.some_bind]

/-- The conversion to `int` of a nonnegative double below 256 with known integer part. -/
theorem toInt_eval {q : ℚ} (v : ℤ) (h1 : (v : ℚ) ≤ q) (h2 : q < v + 1) (h0 : 0 ≤ v)
    (h255 : v ≤ 255) : toInt q = some v := by
  have hq0 : 0 ≤ q := le_trans (by exact_mod_cast h0) h1
  have hq1 : q < 256 := by
    have : (v : ℚ) ≤ 255 := by exact_mod_cast h255
    linarith
  rw [toInt_of_range hq0 hq1, trunc_of_nonneg hq0]
  congr 1
  rw [Int.floor_eq_iff]
  exact ⟨h1, h2⟩

/-- The matrix of a single pixel whose brightness and conversion are known. -/
theorem constructBrightnessMatrix_pixel (c : ColorRGB) (m : BrightnessMapping) {q : ℚ}
    {v : ℤ} (hq : brightness_map m c.red c.green c.blue = some q) (hv : toInt q = some v) :
    constructBrightnessMatrix ⟨1, 1, fun _ _ => c⟩ m = some [[v]] := by
  obtain ⟨M, hM, hgrid, hcell⟩ :=
    constructBrightnessMatrix_fill ⟨1, 1, fun _ _ => c⟩ m (fun _ _ => v)
      (fun x y _ _ => by simp only [pixelBrightness, hq, Option.some_bind, hv])
  rw [hM, grid_one_by_one hgrid (hcell 0 0 Nat.one_pos Nat.one_pos)]

theorem fl_weight_red : fl 0.21 = 7566047373982433 / 36028797018963968 :=
  (fl_eq (-3) 7566047373982433 (by norm_num) (by norm_num) (by norm_num) (by norm_num)
    (by norm_num)).trans (by norm_num)

theorem fl_weight_green : fl 0.72 = 3242591731706757 / 4503599627370496 :=
  (fl_eq (-1) 6485183463413514 (by norm_num) (by norm_num) (by norm_num) (by norm_num)
    (by norm_num)).trans (by norm_num)

theorem fl_weight_blue : fl 0.07 = 1261007895663739 / 18014398509481984 :=
  (fl_eq (-4) 5044031582654956 (by norm_num) (by norm_num) (by norm_num) (by norm_num)
    (by norm_num)).trans (by norm_num)

/-- The average mapping on a pure red pixel. -/
theorem brightness_red_average :
    brightness_map brightness_average 1 0 0 = some 85 := by
  have h1 : toDouble (1 + 0) = some 1 :=
    toDouble_eval (0) 4503599627370496 (by norm_num) (by norm_num) (by norm_num)
      (by norm_num) (by norm_num) (by norm_num) (by norm_num)
  have h2 : toDouble (1 + 0) = some 1 :=
    toDouble_eval (0) 4503599627370496 (by norm_num) (by norm_num) (by norm_num)
      (by norm_num) (by norm_num) (by norm_num) (by norm_num)
  have h3 : toDouble (255 * 1) = some 255 :=
    toDouble_eval (7) 8972014882652160 (by norm_num) (by norm_num) (by norm_num)
      (by norm_num) (by norm_num) (by norm_num) (by norm_num)
  have h4 : toDouble (255 / 3) = some 85 :=
    toDouble_eval (6) 5981343255101440 (by norm_num) (by norm_num) (by norm_num)
      (by norm_num) (by norm_num) (by norm_num) (by norm_num)
  exact average_eval h1 h2 h3 h4

/-- The min/max mapping on a pure red pixel. -/
theorem brightness_red_min_max :
    brightness_map brightness_min_max 1 0 0 = some (255 / 2) := by
  have hmax : max (max 1 0) 0 = (1 : ℚ) := by norm_num
  have hmin : min (min 1 0) 0 = (0 : ℚ) := by norm_num
  have h1 : toDouble (1 + 0) = some 1 :=
    toDouble_eval (0) 4503599627370496 (by norm_num) (by norm_num) (by norm_num)
      (by norm_num) (by norm_num) (by norm_num) (by norm_num)
  have h2 : toDouble (255 * 1) = some 255 :=
    toDouble_eval (7) 8972014882652160 (by norm_num) (by norm_num) (by norm_num)
      (by norm_num) (by norm_num) (by norm_num) (by norm_num)
  have h3 : toDouble (255 / 2) = some (255 / 2) :=
    toDouble_eval (6) 8972014882652160 (by norm_num) (by norm_num) (by norm_num)
      (by norm_num) (by norm_num) (by norm_num) (by norm_num)
  exact min_max_eval hmax hmin h1 h2 h3

/-- The luminosity mapping on a pure red pixel. -/
theorem brightness_red_luminosity :
    brightness_map brightness_luminosity 1 0 0 = some (3768246250713907 / 70368744177664) := by
  have h1 : toDouble ((7566047373982433 / 36028797018963968) * 1)
      = some (7566047373982433 / 36028797018963968) :=
    toDouble_eval (-3) 7566047373982433 (by norm_num) (by norm_num) (by norm_num)
      (by norm_num) (by norm_num) (by norm_num) (by norm_num)
  have h2 : toDouble ((3242591731706757 / 4503599627370496) * 0)
      = some 0 := toDouble_zero (by norm_num)
  have h3 : toDouble ((7566047373982433 / 36028797018963968) + 0)
      = some (7566047373982433 / 36028797018963968) :=
    toDouble_eval (-3) 7566047373982433 (by norm_num) (by norm_num) (by norm_num)
      (by norm_num) (by norm_num) (by norm_num) (by norm_num)
  have h4 : toDouble ((1261007895663739 / 18014398509481984) * 0)
      = some 0 := toDouble_zero (by norm_num)
  have h5 : toDouble ((7566047373982433 / 36028797018963968) + 0)
      = some (7566047373982433 / 36028797018963968) :=
    toDouble_eval (-3) 7566047373982433 (by norm_num) (by norm_num) (by norm_num)
      (by norm_num) (by norm_num) (by norm_num) (by norm_num)
  have h6 : toDouble (255 * (7566047373982433 / 36028797018963968))
      = some (3768246250713907 / 70368744177664) :=
    toDouble_eval (5) 7536492501427814 (by norm_num) (by norm_num) (by norm_num)
      (by norm_num) (by norm_num) (by norm_num) (by norm_num)
  exact luminosity_eval fl_weight_red fl_weight_green fl_weight_blue h1 h2 h3 h4 h5 h6

/-- The luminosity mapping on the pixel `(1/2, 5/16, 1)`. -/
theorem brightness_luma_luminosity :
    brightness_map brightness_luminosity (1 / 2) (5 / 16) 1
        = some (7177611906121727 / 70368744177664) := by
  have h1 : toDouble ((7566047373982433 / 36028797018963968) * (1 / 2))
      = some (7566047373982433 / 72057594037927936) :=
    toDouble_eval (-4) 7566047373982433 (by norm_num) (by norm_num) (by norm_num)
      (by norm_num) (by norm_num) (by norm_num) (by norm_num)
  have h2 : toDouble ((3242591731706757 / 4503599627370496) * (5 / 16))
      = some (2026619832316723 / 9007199254740992) :=
    toDouble_eval_tie_even (-3) 8106479329266892 (by norm_num) (by norm_num) (by norm_num)
      (by norm_num) (by decide) (by norm_num) (by norm_num)
  have h3 : toDouble ((7566047373982433 / 72057594037927936)
      + (2026619832316723 / 9007199254740992))
      = some (2972375754064527 / 9007199254740992) :=
    toDouble_eval (-2) 5944751508129054 (by norm_num) (by norm_num) (by norm_num)
      (by norm_num) (by norm_num) (by norm_num) (by norm_num)
  have h4 : toDouble ((1261007895663739 / 18014398509481984) * 1)
      = some (1261007895663739 / 18014398509481984) :=
    toDouble_eval (-4) 5044031582654956 (by norm_num) (by norm_num) (by norm_num)
      (by norm_num) (by norm_num) (by norm_num) (by norm_num)
  have h5 : toDouble ((2972375754064527 / 9007199254740992)
      + (1261007895663739 / 18014398509481984))
      = some (7205759403792793 / 18014398509481984) :=
    toDouble_eval (-2) 7205759403792793 (by norm_num) (by norm_num) (by norm_num)
      (by norm_num) (by norm_num) (by norm_num) (by norm_num)
  have h6 : toDouble (255 * (7205759403792793 / 18014398509481984))
      = some (7177611906121727 / 70368744177664) :=
    toDouble_eval (6) 7177611906121727 (by norm_num) (by norm_num) (by norm_num)
      (by norm_num) (by norm_num) (by norm_num) (by norm_num)
  exact luminosity_eval fl_weight_red fl_weight_green fl_weight_blue h1 h2 h3 h4 h5 h6

/-- The average mapping on the grey level 11. -/
theorem brightness_grey11_average :
    brightness_map brightness_average (3108366801636107 / 72057594037927936)
        (3108366801636107 / 72057594037927936) (3108366801636107 / 72057594037927936)
        = some (6192449487634431 / 562949953421312) := by
  have h1 : toDouble ((3108366801636107 / 72057594037927936)
      + (3108366801636107 / 72057594037927936))
      = some (3108366801636107 / 36028797018963968) :=
    toDouble_eval (-4) 6216733603272214 (by norm_num) (by norm_num) (by norm_num)
      (by norm_num) (by norm_num) (by norm_num) (by norm_num)
  have h2 : toDouble ((3108366801636107 / 36028797018963968)
      + (3108366801636107 / 72057594037927936))
      = some (291409387653385 / 2251799813685248) :=
    toDouble_eval_tie_even (-3) 4662550202454160 (by norm_num) (by norm_num) (by norm_num)
      (by norm_num) (by decide) (by norm_num) (by norm_num)
  have h3 : toDouble (255 * (291409387653385 / 2251799813685248))
      = some (4644337115725823 / 140737488355328) :=
    toDouble_eval (5) 4644337115725823 (by norm_num) (by norm_num) (by norm_num)
      (by norm_num) (by norm_num) (by norm_num) (by norm_num)
  have h4 : toDouble ((4644337115725823 / 140737488355328) / 3)
      = some (6192449487634431 / 562949953421312) :=
    toDouble_eval (3) 6192449487634431 (by norm_num) (by norm_num) (by norm_num)
      (by norm_num) (by norm_num) (by norm_num) (by norm_num)
  exact average_eval h1 h2 h3 h4

/-- The min/max mapping on the grey level 11. -/
theorem brightness_grey11_min_max :
    brightness_map brightness_min_max (3108366801636107 / 72057594037927936)
        (3108366801636107 / 72057594037927936) (3108366801636107 / 72057594037927936)
        = some 11 := by
  have hmax : max (max (3108366801636107 / 72057594037927936)
      (3108366801636107 / 72057594037927936)) (3108366801636107 / 72057594037927936)
      = ((3108366801636107 / 72057594037927936) : ℚ) := by norm_num
  have hmin : min (min (3108366801636107 / 72057594037927936)
      (3108366801636107 / 72057594037927936)) (3108366801636107 / 72057594037927936)
      = ((3108366801636107 / 72057594037927936) : ℚ) := by norm_num
  have h1 : toDouble ((3108366801636107 / 72057594037927936)
      + (3108366801636107 / 72057594037927936))
      = some (3108366801636107 / 36028797018963968) :=
    toDouble_eval (-4) 6216733603272214 (by norm_num) (by norm_num) (by norm_num)
      (by norm_num) (by norm_num) (by norm_num) (by norm_num)
  have h2 : toDouble (255 * (3108366801636107 / 36028797018963968)) = some 22 :=
    toDouble_eval (4) 6192449487634432 (by norm_num) (by norm_num) (by norm_num)
      (by norm_num) (by norm_num) (by norm_num) (by norm_num)
  have h3 : toDouble (22 / 2) = some 11 :=
    toDouble_eval (3) 6192449487634432 (by norm_num) (by norm_num) (by norm_num)
      (by norm_num) (by norm_num) (by norm_num) (by norm_num)
  exact min_max_eval hmax hmin h1 h2 h3

/-- The luminosity mapping on the grey level 11. -/
theorem brightness_grey11_luminosity :
    brightness_map brightness_luminosity (3108366801636107 / 72057594037927936)
        (3108366801636107 / 72057594037927936) (3108366801636107 / 72057594037927936)
        = some 11 := by
  have h1 : toDouble ((7566047373982433 / 36028797018963968)
      * (3108366801636107 / 72057594037927936))
      = some (1305514056687165 / 144115188075855872) :=
    toDouble_eval (-7) 5222056226748660 (by norm_num) (by norm_num) (by norm_num)
      (by norm_num) (by norm_num) (by norm_num) (by norm_num)
  have h2 : toDouble ((3242591731706757 / 4503599627370496)
      * (3108366801636107 / 72057594037927936))
      = some (2238024097177997 / 72057594037927936) :=
    toDouble_eval (-6) 8952096388711988 (by norm_num) (by norm_num) (by norm_num)
      (by norm_num) (by norm_num) (by norm_num) (by norm_num)
  have h3 : toDouble ((1305514056687165 / 144115188075855872)
      + (2238024097177997 / 72057594037927936))
      = some (5781562251043159 / 144115188075855872) :=
    toDouble_eval (-5) 5781562251043159 (by norm_num) (by norm_num) (by norm_num)
      (by norm_num) (by norm_num) (by norm_num) (by norm_num)
  have h4 : toDouble ((1261007895663739 / 18014398509481984)
      * (3108366801636107 / 72057594037927936))
      = some (435171352229055 / 144115188075855872) :=
    toDouble_eval (-9) 6962741635664880 (by norm_num) (by norm_num) (by norm_num)
      (by norm_num) (by norm_num) (by norm_num) (by norm_num)
  have h5 : toDouble ((5781562251043159 / 144115188075855872)
      + (435171352229055 / 144115188075855872))
      = some (3108366801636107 / 72057594037927936) :=
    toDouble_eval (-5) 6216733603272214 (by norm_num) (by norm_num) (by norm_num)
      (by norm_num) (by norm_num) (by norm_num) (by norm_num)
  have h6 : toDouble (255 * (3108366801636107 / 72057594037927936)) = some 11 :=
    toDouble_eval (3) 6192449487634432 (by norm_num) (by norm_num) (by norm_num)
      (by norm_num) (by norm_num) (by norm_num) (by norm_num)
  exact luminosity_eval fl_weight_red fl_weight_green fl_weight_blue h1 h2 h3 h4 h5 h6

/-- The average mapping on white. -/
theorem brightness_white_average :
    brightness_map brightness_average 1 1 1 = some 255 := by
  have h1 : toDouble (1 + 1) = some 2 :=
    toDouble_eval (1) 4503599627370496 (by norm_num) (by norm_num) (by norm_num)
      (by norm_num) (by norm_num) (by norm_num) (by norm_num)
  have h2 : toDouble (2 + 1) = some 3 :=
    toDouble_eval (1) 6755399441055744 (by norm_num) (by norm_num) (by norm_num)
      (by norm_num) (by norm_num) (by norm_num) (by norm_num)
  have h3 : toDouble (255 * 3) = some 765 :=
    toDouble_eval (9) 6729011161989120 (by norm_num) (by norm_num) (by norm_num)
      (by norm_num) (by norm_num) (by norm_num) (by norm_num)
  have h4 : toDouble (765 / 3) = some 255 :=
    toDouble_eval (7) 8972014882652160 (by norm_num) (by norm_num) (by norm_num)
      (by norm_num) (by norm_num) (by norm_num) (by norm_num)
  exact average_eval h1 h2 h3 h4

/-- The min/max mapping on white. -/
theorem brightness_white_min_max :
    brightness_map brightness_min_max 1 1 1 = some 255 := by
  have hmax : max (max 1 1) 1 = (1 : ℚ) := by norm_num
  have hmin : min (min 1 1) 1 = (1 : ℚ) := by norm_num
  have h1 : toDouble (1 + 1) = some 2 :=
    toDouble_eval (1) 4503599627370496 (by norm_num) (by norm_num) (by norm_num)
      (by norm_num) (by norm_num) (by norm_num) (by norm_num)
  have h2 : toDouble (255 * 2) = some 510 :=
    toDouble_eval (8) 8972014882652160 (by norm_num) (by norm_num) (by norm_num)
      (by norm_num) (by norm_num) (by norm_num) (by norm_num)
  have h3 : toDouble (510 / 2) = some 255 :=
    toDouble_eval (7) 8972014882652160 (by norm_num) (by norm_num) (by norm_num)
      (by norm_num) (by norm_num) (by norm_num) (by norm_num)
  exact min_max_eval hmax hmin h1 h2 h3

/-- The luminosity mapping on white. -/
theorem brightness_white_luminosity :
    brightness_map brightness_luminosity 1 1 1 = some 255 := by
  have h1 : toDouble ((7566047373982433 / 36028797018963968) * 1)
      = some (7566047373982433 / 36028797018963968) :=
    toDouble_eval (-3) 7566047373982433 (by norm_num) (by norm_num) (by norm_num)
      (by norm_num) (by norm_num) (by norm_num) (by norm_num)
  have h2 : toDouble ((3242591731706757 / 4503599627370496) * 1)
      = some (3242591731706757 / 4503599627370496) :=
    toDouble_eval (-1) 6485183463413514 (by norm_num) (by norm_num) (by norm_num)
      (by norm_num) (by norm_num) (by norm_num) (by norm_num)
  have h3 : toDouble ((7566047373982433 / 36028797018963968)
      + (3242591731706757 / 4503599627370496))
      = some (4188347653454561 / 4503599627370496) :=
    toDouble_eval (-1) 8376695306909122 (by norm_num) (by norm_num) (by norm_num)
      (by norm_num) (by norm_num) (by norm_num) (by norm_num)
  have h4 : toDouble ((1261007895663739 / 18014398509481984) * 1)
      = some (1261007895663739 / 18014398509481984) :=
    toDouble_eval (-4) 5044031582654956 (by norm_num) (by norm_num) (by norm_num)
      (by norm_num) (by norm_num) (by norm_num) (by norm_num)
  have h5 : toDouble ((4188347653454561 / 4503599627370496)
      + (1261007895663739 / 18014398509481984))
      = some 1 :=
    toDouble_eval_tie_odd (-1) 9007199254740991 (by norm_num) (by norm_num) (by norm_num)
      (by norm_num) (by decide) (by norm_num) (by norm_num)
  have h6 : toDouble (255 * 1) = some 255 :=
    toDouble_eval (7) 8972014882652160 (by norm_num) (by norm_num) (by norm_num)
      (by norm_num) (by norm_num) (by norm_num) (by norm_num)
  exact luminosity_eval fl_weight_red fl_weight_green fl_weight_blue h1 h2 h3 h4 h5 h6

/-- The average mapping on black. -/
theorem brightness_black_average :
    brightness_map brightness_average 0 0 0 = some 0 := by
  have h1 : toDouble (0 + 0) = some 0 := toDouble_zero (by norm_num)
  have h2 : toDouble (0 + 0) = some 0 := toDouble_zero (by norm_num)
  have h3 : toDouble (255 * 0) = some 0 := toDouble_zero (by norm_num)
  have h4 : toDouble (0 / 3) = some 0 := toDouble_zero (by norm_num)
  exact average_eval h1 h2 h3 h4

/-- The min/max mapping on black. -/
theorem brightness_black_min_max :
    brightness_map brightness_min_max 0 0 0 = some 0 := by
  have hmax : max (max 0 0) 0 = (0 : ℚ) := by norm_num
  have hmin : min (min 0 0) 0 = (0 : ℚ) := by norm_num
  have h1 : toDouble (0 + 0) = some 0 := toDouble_zero (by norm_num)
  have h2 : toDouble (255 * 0) = some 0 := toDouble_zero (by norm_num)
  have h3 : toDouble (0 / 2) = some 0 := toDouble_zero (by norm_num)
  exact min_max_eval hmax hmin h1 h2 h3

/-- The luminosity mapping on black. -/
theorem brightness_black_luminosity :
    brightness_map brightness_luminosity 0 0 0 = some 0 := by
  have h1 : toDouble ((7566047373982433 / 36028797018963968) * 0)
      = some 0 := toDouble_zero (by norm_num)
  have h2 : toDouble ((3242591731706757 / 4503599627370496) * 0)
      = some 0 := toDouble_zero (by norm_num)
  have h3 : toDouble (0 + 0) = some 0 := toDouble_zero (by norm_num)
  have h4 : toDouble ((1261007895663739 / 18014398509481984) * 0)
      = some 0 := toDouble_zero (by norm_num)
  have h5 : toDouble (0 + 0) = some 0 := toDouble_zero (by norm_num)
  have h6 : toDouble (255 * 0) = some 0 := toDouble_zero (by norm_num)
  exact luminosity_eval fl_weight_red fl_weight_green fl_weight_blue h1 h2 h3 h4 h5 h6
/-- C1: on an image whose channels lie in `[0,1]`, under each of the three mappings, the
brightness matrix is built and the integer stored for the pixel at column `x`, row `y` is
the double the mapping returns (the selected formula, every operation rounded to the
nearest double), truncated toward zero, and lies in `0..255`. -/
theorem brightness_entries_within_byte (image : Image) (m : BrightnessMapping)
    (h : image.Normalised) :
    ∃ M, constructBrightnessMatrix image m = some M ∧
      ∀ x y, x < image.columns → y < image.rows →
        ∃ q v, brightness_map m (image.pixelColor x y).red (image.pixelColor x y).green
            (image.pixelColor x y).blue = some q ∧
          q = (if m = brightness_min_max then
              fl (fl (255 * fl
                (max (max (image.pixelColor x y).red (image.pixelColor x y).green)
                    (image.pixelColor x y).blue +
                  min (min (image.pixelColor x y).red (image.pixelColor x y).green)
                    (image.pixelColor x y).blue)) / 2)
            else if m = brightness_luminosity then
              fl (255 * fl (fl
                (fl (fl 0.21 * (image.pixelColor x y).red) +
                  fl (fl 0.72 * (image.pixelColor x y).green)) +
                fl (fl 0.07 * (image.pixelColor x y).blue)))
            else
              fl (fl (255 * fl (fl ((image.pixelColor x y).red +
                (image.pixelColor x y).green) + (image.pixelColor x y).blue)) / 3)) ∧
          readAt M y x = some v ∧ v = trunc q ∧ 0 ≤ v ∧ v ≤ 255 := by
  obtain ⟨M, hM, _, hcell⟩ := constructBrightnessMatrix_normalised image m h
  refine ⟨M, hM, ?_⟩
  intro x y hx hy
  obtain ⟨q, hq, hread, h0, h1, _⟩ := hcell x y hx hy
  exact ⟨q, trunc q, hq, brightness_map_eq_some hq, hread, rfl, trunc_range h0 h1⟩

theorem brightness_entries_within_byte_witness :
    sampleImage.Normalised ∧
    ∃ M, constructBrightnessMatrix sampleImage brightness_luminosity = some M ∧
      ∀ x y, x < sampleImage.columns → y < sampleImage.rows →
        ∃ q v, brightness_map brightness_luminosity (sampleImage.pixelColor x y).red
            (sampleImage.pixelColor x y).green (sampleImage.pixelColor x y).blue = some q ∧
          q = (if brightness_luminosity = brightness_min_max then
              fl (fl (255 * fl
                (max (max (sampleImage.pixelColor x y).red (sampleImage.pixelColor x y).green)
                    (sampleImage.pixelColor x y).blue +
                  min (min (sampleImage.pixelColor x y).red (sampleImage.pixelColor x y).green)
                    (sampleImage.pixelColor x y).blue)) / 2)
            else if brightness_luminosity = brightness_luminosity then
              fl (255 * fl (fl
                (fl (fl 0.21 * (sampleImage.pixelColor x y).red) +
                  fl (fl 0.72 * (sampleImage.pixelColor x y).green)) +
                fl (fl 0.07 * (sampleImage.pixelColor x y).blue)))
            else
              fl (fl (255 * fl (fl ((sampleImage.pixelColor x y).red +
                (sampleImage.pixelColor x y).green) + (sampleImage.pixelColor x y).blue)) / 3)) ∧
          readAt M y x = some v ∧ v = trunc q ∧ 0 ≤ v ∧ v ≤ 255 :=
  ⟨sampleImage_normalised,
    brightness_entries_within_byte sampleImage brightness_luminosity sampleImage_normalised⟩

/-- C5, as stated, fails: for the pixel with channels `1/2`, `5/16`, `1` the luminosity
formula over exact rationals gives `255 * 0.4 = 102`, but the matrix holds 101, the
product `0.72 * (5/16)` and the sums being rounded to doubles on the way.  The three
channels are doubles. -/
theorem exact_formula_not_stored :
    constructBrightnessMatrix lumaPixelImage brightness_luminosity = some [[101]] ∧
    trunc (255 * (0.21 * (1 / 2) + 0.72 * (5 / 16) + 0.07 * 1)) = 102 ∧
    constructBrightnessMatrix lumaPixelImage brightness_luminosity
      ≠ some [[trunc (255 * (0.21 * (1 / 2) + 0.72 * (5 / 16) + 0.07 * 1))]] ∧
    fl (1 / 2) = 1 / 2 ∧ fl (5 / 16) = 5 / 16 ∧ fl 1 = 1 := by
  have hcode : constructBrightnessMatrix lumaPixelImage brightness_luminosity
      = some [[101]] :=
    constructBrightnessMatrix_pixel ⟨1 / 2, 5 / 16, 1⟩ brightness_luminosity
      brightness_luma_luminosity (toInt_eval 101 (by norm_num) (by norm_num) (by norm_num)
        (by norm_num))
  have hexact : trunc (255 * (0.21 * (1 / 2) + 0.72 * (5 / 16) + 0.07 * 1)) = 102 := by
    have h : (255 * (0.21 * (1 / 2) + 0.72 * (5 / 16) + 0.07 * 1) : ℚ) = 102 := by norm_num
    rw [h]
    simp [trunc]
  refine ⟨hcode, hexact, ?_, ?_, ?_, ?_⟩
  · rw [hcode, hexact]
    decide
  · exact (fl_eq (-1) 4503599627370496 (by norm_num) (by norm_num) (by norm_num)
      (by norm_num) (by norm_num)).trans (by norm_num)
  · exact (fl_eq (-2) 5629499534213120 (by norm_num) (by norm_num) (by norm_num)
      (by norm_num) (by norm_num)).trans (by norm_num)
  · exact (fl_eq 0 4503599627370496 (by norm_num) (by norm_num) (by norm_num)
      (by norm_num) (by norm_num)).trans (by norm_num)

/-- C5 (amended): whenever the matrix is built, its entry for the pixel with channels `r`,
`g`, `b` is the truncation of the selected formula evaluated in double arithmetic, each
operation rounded to the nearest double: `255 * (r + g + b) / 3` for
`brightness_average`, `255 * (max r g b + min r g b) / 2` for `brightness_min_max`,
`255 * (0.21 * r + 0.72 * g + 0.07 * b)` for `brightness_luminosity`.  For channels in
`[0,1]` the matrix is built under every selector and the entry is within one of the
truncated exact value of the formula.  On a pure red pixel the three selectors store
three different values, 85, 127 and 53. -/
theorem brightness_mapping_selects_formula (image : Image) (m : BrightnessMapping)
    (M : List (List ℤ)) (hM : constructBrightnessMatrix image m = some M) :
    (∀ x y, x < image.columns → y < image.rows →
      readAt M y x = some (trunc
        (if m = brightness_min_max then
          fl (fl (255 * fl
            (max (max (image.pixelColor x y).red (image.pixelColor x y).green)
                (image.pixelColor x y).blue +
              min (min (image.pixelColor x y).red (image.pixelColor x y).green)
                (image.pixelColor x y).blue)) / 2)
        else if m = brightness_luminosity then
          fl (255 * fl (fl
            (fl (fl 0.21 * (image.pixelColor x y).red) +
              fl (fl 0.72 * (image.pixelColor x y).green)) +
            fl (fl 0.07 * (image.pixelColor x y).blue)))
        else
          fl (fl (255 * fl (fl ((image.pixelColor x y).red + (image.pixelColor x y).green) +
            (image.pixelColor x y).blue)) / 3)))) ∧
    (∀ img : Image, img.Normalised → ∀ m2, ∃ M2,
      constructBrightnessMatrix img m2 = some M2 ∧
      ∀ x y, x < img.columns → y < img.rows →
        ∃ v, readAt M2 y x = some v ∧
          |v - trunc (exactBrightness m2 (img.pixelColor x y).red
            (img.pixelColor x y).green (img.pixelColor x y).blue)| ≤ 1) ∧
    constructBrightnessMatrix redPixelImage brightness_average = some [[85]] ∧
    constructBrightnessMatrix redPixelImage brightness_min_max = some [[127]] ∧
    constructBrightnessMatrix redPixelImage brightness_luminosity = some [[53]] := by
  refine ⟨?_, ?_, ?_, ?_, ?_⟩
  · intro x y hx hy
    obtain ⟨q, hq, hread⟩ := (constructBrightnessMatrix_cells hM).2 x y hx hy
    rw [hread, brightness_map_eq_some hq]
  · intro img h m2
    obtain ⟨M2, hM2, _, hcell⟩ := constructBrightnessMatrix_normalised img m2 h
    refine ⟨M2, hM2, fun x y hx hy => ?_⟩
    obtain ⟨q, _, hread, h0, _, hnear⟩ := hcell x y hx hy
    obtain ⟨hr, hg, hb⟩ := h x y hx hy
    obtain ⟨hx0, _⟩ := exactBrightness_range m2 hr hg hb
    exact ⟨trunc q, hread, trunc_near h0 hx0 (lt_of_le_of_lt hnear (by norm_num))⟩
  · exact constructBrightnessMatrix_pixel ⟨1, 0, 0⟩ brightness_average brightness_red_average
      (toInt_eval 85 (by norm_num) (by norm_num) (by norm_num) (by norm_num))
  · exact constructBrightnessMatrix_pixel ⟨1, 0, 0⟩ brightness_min_max brightness_red_min_max
      (toInt_eval 127 (by norm_num) (by norm_num) (by norm_num) (by norm_num))
  · exact constructBrightnessMatrix_pixel ⟨1, 0, 0⟩ brightness_luminosity
      brightness_red_luminosity
      (toInt_eval 53 (by norm_num) (by norm_num) (by norm_num) (by norm_num))

theorem brightness_mapping_selects_formula_witness :
    constructBrightnessMatrix lumaPixelImage brightness_luminosity = some [[101]] ∧
    ((∀ x y, x < lumaPixelImage.columns → y < lumaPixelImage.rows →
      readAt [[101]] y x = some (trunc
        (if brightness_luminosity = brightness_min_max then
          fl (fl (255 * fl
            (max (max (lumaPixelImage.pixelColor x y).red (lumaPixelImage.pixelColor x y).green)
                (lumaPixelImage.pixelColor x y).blue +
              min (min (lumaPixelImage.pixelColor x y).red (lumaPixelImage.pixelColor x y).green)
                (lumaPixelImage.pixelColor x y).blue)) / 2)
        else if brightness_luminosity = brightness_luminosity then
          fl (255 * fl (fl
            (fl (fl 0.21 * (lumaPixelImage.pixelColor x y).red) +
              fl (fl 0.72 * (lumaPixelImage.pixelColor x y).green)) +
            fl (fl 0.07 * (lumaPixelImage.pixelColor x y).blue)))
        else
          fl (fl (255 * fl (fl ((lumaPixelImage.pixelColor x y).red +
            (lumaPixelImage.pixelColor x y).green) + (lumaPixelImage.pixelColor x y).blue)) /
            3)))) ∧
    (∀ img : Image, img.Normalised → ∀ m2, ∃ M2,
      constructBrightnessMatrix img m2 = some M2 ∧
      ∀ x y, x < img.columns → y < img.rows →
        ∃ v, readAt M2 y x = some v ∧
          |v - trunc (exactBrightness m2 (img.pixelColor x y).red
            (img.pixelColor x y).green (img.pixelColor x y).blue)| ≤ 1) ∧
    constructBrightnessMatrix redPixelImage brightness_average = some [[85]] ∧
    constructBrightnessMatrix redPixelImage brightness_min_max = some [[127]] ∧
    constructBrightnessMatrix redPixelImage brightness_luminosity = some [[53]]) :=
  ⟨constructBrightnessMatrix_pixel ⟨1 / 2, 5 / 16, 1⟩ brightness_luminosity
      brightness_luma_luminosity
      (toInt_eval 101 (by norm_num) (by norm_num) (by norm_num) (by norm_num)),
    brightness_mapping_selects_formula lumaPixelImage brightness_luminosity [[101]]
      (constructBrightnessMatrix_pixel ⟨1 / 2, 5 / 16, 1⟩ brightness_luminosity
        brightness_luma_luminosity
        (toInt_eval 101 (by norm_num) (by norm_num) (by norm_num) (by norm_num)))⟩

/-! ## The character ramp -/

/-- C2: for a brightness `b` in `0..255` the ramp position computed by `convertToASCII`
is `b * (65 - 1) / 255`, lies in `0..64`, is inside the ramp of 65 characters, and the
lookup returns one of the ramp's characters. -/
theorem ramp_lookup_in_bounds (b : ℤ) (h0 : 0 ≤ b) (h1 : b ≤ 255) :
    characters.length = 65 ∧ (rampIndex b : ℤ) = b * (65 - 1) / 255 ∧
      rampIndex b ≤ 64 ∧ rampIndex b < characters.length ∧
      ∃ c, characters[rampIndex b]? = some c ∧ c ∈ characters := by
  have hle := rampIndex_le h0 h1
  refine ⟨characters_length, ?_, hle, ?_, characters_lookup hle⟩
  · rw [rampIndex_of_range h0 h1]
    omega
  · rw [characters_length]
    omega

theorem ramp_lookup_in_bounds_witness :
    (0 : ℤ) ≤ 200 ∧ (200 : ℤ) ≤ 255 ∧
      (characters.length = 65 ∧ (rampIndex 200 : ℤ) = 200 * (65 - 1) / 255 ∧
        rampIndex 200 ≤ 64 ∧ rampIndex 200 < characters.length ∧
        ∃ c, characters[rampIndex 200]? = some c ∧ c ∈ characters) :=
  ⟨by decide, by decide, ramp_lookup_in_bounds 200 (by decide) (by decide)⟩

/-- C4: the ramp position is monotone in the brightness over `0..255`; brightness 0 is
sent to position 0, the first ramp character (the backquote), and brightness 255 to
position 64, the last ramp character `$`. -/
theorem ramp_position_monotone (b1 b2 : ℤ) (h0 : 0 ≤ b1) (h12 : b1 ≤ b2) (h2 : b2 ≤ 255) :
    rampIndex b1 ≤ rampIndex b2 ∧
      rampIndex 0 = 0 ∧ characters[rampIndex 0]? = some '\x60' ∧
      characters.head? = some '\x60' ∧
      rampIndex 255 = 64 ∧ characters[rampIndex 255]? = some '$' ∧
      characters.getLast? = some '$' := by
  have e0 : rampIndex 0 = 0 := by
    rw [rampIndex_of_range (le_refl 0) (by decide)]
    rfl
  have e255 : rampIndex 255 = 64 := by
    rw [rampIndex_of_range (by decide) (le_refl 255)]
    rfl
  refine ⟨?_, e0, ?_, by decide, e255, ?_, by decide⟩
  · rw [rampIndex_of_range h0 (le_trans h12 h2), rampIndex_of_range (le_trans h0 h12) h2]
    omega
  · rw [e0]; decide
  · rw [e255]; decide

theorem ramp_position_monotone_witness :
    (0 : ℤ) ≤ 3 ∧ (3 : ℤ) ≤ 4 ∧ (4 : ℤ) ≤ 255 ∧
      (rampIndex 3 ≤ rampIndex 4 ∧
        rampIndex 0 = 0 ∧ characters[rampIndex 0]? = some '\x60' ∧
        characters.head? = some '\x60' ∧
        rampIndex 255 = 64 ∧ characters[rampIndex 255]? = some '$' ∧
        characters.getLast? = some '$') :=
  ⟨by decide, by decide, by decide,
    ramp_position_monotone 3 4 (by decide) (by decide) (by decide)⟩

/-- C3: for an image with `R ≥ 1` rows and `C ≥ 1` columns whose channels lie in `[0,1]`
and every mapping `m`, converting the brightness matrix yields a grid of exactly `R` rows
of exactly `C` characters whose entry at row `y`, column `x` is the ramp character at
position `brightness * 64 / 255`, where `brightness` is the truncated double the mapping
returns (the selected formula, every operation rounded to the nearest double) for the
pixel at column `x`, row `y`. -/
theorem ascii_grid_matches_pixels (image : Image) (m : BrightnessMapping)
    (h : image.Normalised) (hR : 1 ≤ image.rows) (hC : 1 ≤ image.columns) :
    ∃ G, (constructBrightnessMatrix image m).bind convertToASCII = some G ∧
      G.length = image.rows ∧ (∀ row ∈ G, row.length = image.columns) ∧
      ∀ x y, x < image.columns → y < image.rows →
        ∃ q c, brightness_map m (image.pixelColor x y).red (image.pixelColor x y).green
            (image.pixelColor x y).blue = some q ∧
          q = (if m = brightness_min_max then
              fl (fl (255 * fl
                (max (max (image.pixelColor x y).red (image.pixelColor x y).green)
                    (image.pixelColor x y).blue +
                  min (min (image.pixelColor x y).red (image.pixelColor x y).green)
                    (image.pixelColor x y).blue)) / 2)
            else if m = brightness_luminosity then
              fl (255 * fl (fl
                (fl (fl 0.21 * (image.pixelColor x y).red) +
                  fl (fl 0.72 * (image.pixelColor x y).green)) +
                fl (fl 0.07 * (image.pixelColor x y).blue)))
            else
              fl (fl (255 * fl (fl ((image.pixelColor x y).red +
                (image.pixelColor x y).green) + (image.pixelColor x y).blue)) / 3)) ∧
          readAt G y x = some c ∧
          characters[(trunc q * 64 / 255).toNat]? = some c := by
  have _ := hC
  obtain ⟨M, hM, hgrid, hcell⟩ := constructBrightnessMatrix_normalised image m h
  have hlook : ∀ x y, x < image.columns → y < image.rows →
      ∃ b, readAt M y x = some b ∧ 0 ≤ b ∧ b ≤ 255 := by
    intro x y hx hy
    obtain ⟨q, _, hread, h0, h1, _⟩ := hcell x y hx hy
    exact ⟨trunc q, hread, trunc_range h0 h1⟩
  obtain ⟨G, hG, hGgrid, hGcell⟩ :=
    convertToASCII_fill hgrid hR
      (fun x y => characters.getD (rampIndex ((readAt M y x).getD 0)) (Char.ofNat 0))
      (fun x y hx hy => by
        obtain ⟨b, hb, h0, h1⟩ := hlook x y hx hy
        obtain ⟨c, hc, _⟩ := characters_lookup (rampIndex_le h0 h1)
        exact ⟨b, hb, by simp [hb, List.getD, hc]⟩)
  refine ⟨G, by simp [hM, hG], hGgrid.1, hGgrid.2, ?_⟩
  intro x y hx hy
  obtain ⟨q, hq, hread, h0, h1, _⟩ := hcell x y hx hy
  obtain ⟨t0, t1⟩ := trunc_range h0 h1
  obtain ⟨c, hc, _⟩ := characters_lookup (rampIndex_le t0 t1)
  refine ⟨q, c, hq, brightness_map_eq_some hq, ?_, ?_⟩
  · rw [hGcell x y hx hy]
    simp [hread, List.getD, hc]
  · rw [← hc, rampIndex_of_range t0 t1]
    congr 1
    omega

theorem ascii_grid_matches_pixels_witness :
    sampleImage.Normalised ∧ 1 ≤ sampleImage.rows ∧ 1 ≤ sampleImage.columns ∧
    ∃ G, (constructBrightnessMatrix sampleImage brightness_min_max).bind convertToASCII
        = some G ∧
      G.length = sampleImage.rows ∧ (∀ row ∈ G, row.length = sampleImage.columns) ∧
      ∀ x y, x < sampleImage.columns → y < sampleImage.rows →
        ∃ q c, brightness_map brightness_min_max (sampleImage.pixelColor x y).red
            (sampleImage.pixelColor x y).green (sampleImage.pixelColor x y).blue = some q ∧
          q = (if brightness_min_max = brightness_min_max then
              fl (fl (255 * fl
                (max (max (sampleImage.pixelColor x y).red (sampleImage.pixelColor x y).green)
                    (sampleImage.pixelColor x y).blue +
                  min (min (sampleImage.pixelColor x y).red (sampleImage.pixelColor x y).green)
                    (sampleImage.pixelColor x y).blue)) / 2)
            else if brightness_min_max = brightness_luminosity then
              fl (255 * fl (fl
                (fl (fl 0.21 * (sampleImage.pixelColor x y).red) +
                  fl (fl 0.72 * (sampleImage.pixelColor x y).green)) +
                fl (fl 0.07 * (sampleImage.pixelColor x y).blue)))
            else
              fl (fl (255 * fl (fl ((sampleImage.pixelColor x y).red +
                (sampleImage.pixelColor x y).green) + (sampleImage.pixelColor x y).blue)) / 3)) ∧
          readAt G y x = some c ∧
          characters[(trunc q * 64 / 255).toNat]? = some c :=
  ⟨sampleImage_normalised, by decide, by decide,
    ascii_grid_matches_pixels sampleImage brightness_min_max sampleImage_normalised
      (by decide) (by decide)⟩

/-! ## Command line parsing -/

theorem parseOptions_false (argv : List String) (n i : Nat) (o : Options) :
    parseOptions argv n i false o = (false, o) := by
  cases n <;> simp [parseOptions]

theorem parseOption_file_name (argv : List String) (i : Nat) (o : Options) :
    (parseOption argv i o).2.file_name = o.file_name := by
  unfold parseOption
  simp only []
  repeat' split
  all_goals rfl

theorem parseOptions_file_name (argv : List String) (n : Nat) :
    ∀ (i : Nat) (s : Bool) (o : Options),
      (parseOptions argv n i s o).2.file_name = o.file_name := by
  induction n with
  | zero => intro i s o; rfl
  | succ n ih =>
    intro i s o
    unfold parseOptions
    split
    · rw [ih, parseOption_file_name]
    · rfl

/-- An option name in the last position has no value after it. -/
theorem parseOption_last (argv : List String) (i : Nat) (o : Options)
    (hi : i + 1 = argv.length)
    (hopt : arg argv i = "--output-colour" ∨ arg argv i = "--brightness-mapping") :
    (parseOption argv i o).1 = false := by
  have hlt : ¬ (i + 1 < argv.length) := by omega
  rcases hopt with h | h
  · simp [parseOption, h, hlt]
  · simp [parseOption, h, hlt]

theorem parseOptions_last (argv : List String) (k : Nat)
    (hopt : arg argv k = "--output-colour" ∨ arg argv k = "--brightness-mapping")
    (hk : k + 1 = argv.length) (n : Nat) :
    ∀ (i : Nat) (s : Bool) (o : Options), i ≤ k → k < i + n →
      (parseOptions argv n i s o).1 = false := by
  induction n with
  | zero => intro i s o h1 h2; omega
  | succ n ih =>
    intro i s o h1 h2
    unfold parseOptions
    split
    · by_cases hik : i = k
      · have hfalse : (parseOption argv i o).1 = false := by
          rw [hik]; exact parseOption_last argv k o hk hopt
        rw [hfalse, parseOptions_false]
      · exact ih (i + 1) _ _ (by omega) (by omega)
    · rename_i hcond
      have hi : i < argv.length := by omega
      cases s with
      | false => rfl
      | true => exact absurd ⟨hi, rfl⟩ hcond

/-- C6 (the code at the input that shows the defect): with the documented value
`matrix_green` the parser reports failure and leaves the colour at its default; the value
it accepts for the green mode is the misspelt `matix_green`. -/
theorem output_colour_matrix_green_rejected :
    parseArguments ["ascii-art", "image.png", "--output-colour", "matrix_green"]
        initialOptions
      = (false, ⟨"image.png", ascii_default, brightness_average, false⟩) ∧
    parseArguments ["ascii-art", "image.png", "--output-colour", "matix_green"]
        initialOptions
      = (true, ⟨"image.png", ascii_matrix_green, brightness_average, false⟩) ∧
    parseArguments ["ascii-art", "image.png", "--output-colour", "colour"] initialOptions
      = (true, ⟨"image.png", ascii_colour, brightness_average, false⟩) := by
  decide

/-- C7: on `[prog, p, "--brightness-mapping", v]` the parser succeeds exactly when `v` is
`min_max`, `luminosity` or `average`; on success the brightness mapping is the one named
and the output colour and the invert flag keep their values; the file name is `p`. -/
theorem brightness_mapping_option (prog p v : String) (o : Options) :
    ((parseArguments [prog, p, "--brightness-mapping", v] o).1 = true ↔
      (v = "min_max" ∨ v = "luminosity" ∨ v = "average")) ∧
    parseArguments [prog, p, "--brightness-mapping", v] o =
      if v = "min_max" then
        (true, ⟨p, o.output_colour, brightness_min_max, o.invert⟩)
      else if v = "luminosity" then
        (true, ⟨p, o.output_colour, brightness_luminosity, o.invert⟩)
      else if v = "average" then
        (true, ⟨p, o.output_colour, brightness_average, o.invert⟩)
      else
        (false, ⟨p, o.output_colour, o.brightness_mapping, o.invert⟩) := by
  by_cases h1 : v = "min_max"
  · subst h1
    simp [parseArguments, parseOptions, parseOption, arg]
  · by_cases h2 : v = "luminosity"
    · subst h2
      simp [parseArguments, parseOptions, parseOption, arg]
    · by_cases h3 : v = "average"
      · subst h3
        simp [parseArguments, parseOptions, parseOption, arg]
      · simp [parseArguments, parseOptions, parseOption, arg, h1, h2, h3]

/-- C8: with fewer than two arguments the parser fails and changes no out-parameter; with
at least two the file name is `argv[1]`, whatever its text, for example `--invert`. -/
theorem image_path_required (short long : List String) (o : Options)
    (hshort : short.length < 2) (hlong : 2 ≤ long.length) :
    parseArguments short o = (false, o) ∧
    long[1]? = some (parseArguments long o).2.file_name ∧
    parseArguments ["ascii-art", "--invert"] initialOptions
      = (true, ⟨"--invert", ascii_default, brightness_average, false⟩) := by
  refine ⟨?_, ?_, by decide⟩
  · have h : ¬ (2 ≤ short.length) := by omega
    simp [parseArguments, h, parseOptions_false]
  · have h1 : 1 < long.length := by omega
    simp [parseArguments, hlong, parseOptions_file_name, arg, List.getD,
      List.getElem?_eq_getElem h1]

theorem image_path_required_witness :
    (["ascii-art"] : List String).length < 2 ∧
    2 ≤ (["ascii-art", "--invert", "--invert"] : List String).length ∧
    (parseArguments ["ascii-art"] initialOptions = (false, initialOptions) ∧
      (["ascii-art", "--invert", "--invert"] : List String)[1]? =
        some (parseArguments ["ascii-art", "--invert", "--invert"]
          initialOptions).2.file_name ∧
      parseArguments ["ascii-art", "--invert"] initialOptions
        = (true, ⟨"--invert", ascii_default, brightness_average, false⟩)) :=
  ⟨by decide, by decide,
    image_path_required ["ascii-art"] ["ascii-art", "--invert", "--invert"] initialOptions
      (by decide) (by decide)⟩

/-- C9: when the last of at least three arguments is `--output-colour` or
`--brightness-mapping`, the value is missing and the parser reports failure. -/
theorem missing_option_value_fails (argv : List String) (o : Options)
    (hlen : 3 ≤ argv.length)
    (hlast : argv.getLast? = some "--output-colour" ∨
      argv.getLast? = some "--brightness-mapping") :
    (parseArguments argv o).1 = false := by
  have h2 : 2 ≤ argv.length := by omega
  have hlt : argv.length - 1 < argv.length := by omega
  have harg : ∀ s, argv.getLast? = some s → arg argv (argv.length - 1) = s := by
    intro s hs
    rw [List.getLast?_eq_getElem?, List.getElem?_eq_getElem hlt] at hs
    simp [arg, List.getD, List.getElem?_eq_getElem hlt, Option.some.inj hs]
  have hopt : arg argv (argv.length - 1) = "--output-colour" ∨
      arg argv (argv.length - 1) = "--brightness-mapping" := by
    rcases hlast with h | h
    · exact Or.inl (harg _ h)
    · exact Or.inr (harg _ h)
  simp only [parseArguments, h2, if_true]
  exact parseOptions_last argv (argv.length - 1) hopt (by omega) argv.length 2 true _
    (by omega) (by omega)

theorem missing_option_value_fails_witness :
    3 ≤ (["ascii-art", "image.png", "--invert", "--output-colour"] : List String).length ∧
    ((["ascii-art", "image.png", "--invert", "--output-colour"] : List String).getLast?
        = some "--output-colour" ∨
      (["ascii-art", "image.png", "--invert", "--output-colour"] : List String).getLast?
        = some "--brightness-mapping") ∧
    (parseArguments ["ascii-art", "image.png", "--invert", "--output-colour"]
      initialOptions).1 = false :=
  ⟨by decide, Or.inl (by decide),
    missing_option_value_fails ["ascii-art", "image.png", "--invert", "--output-colour"]
      initialOptions (by decide) (Or.inl (by decide))⟩

/-! ## Rendering -/

theorem tripled_append (r1 r2 : List Char) : tripled (r1 ++ r2) = tripled r1 ++ tripled r2 := by
  simp [tripled, List.flatMap_append]

theorem tripledRows_append (g1 g2 : List (List Char)) :
    tripledRows (g1 ++ g2) = tripledRows g1 ++ tripledRows g2 := by
  simp [tripledRows, List.flatMap_append]

theorem tripled_length (row : List Char) : (tripled row).length = 3 * row.length := by
  induction row with
  | nil => rfl
  | cons c row ih =>
    have h : tripled (c :: row) = [c, c, c] ++ tripled row := rfl
    rw [h, List.length_append, ih]
    simp only [List.length_cons, List.length_nil]
    omega

theorem tripledRows_length (C : Nat) (g : List (List Char))
    (h : ∀ row ∈ g, row.length = C) : (tripledRows g).length = g.length * (3 * C + 1) := by
  induction g with
  | nil => simp [tripledRows]
  | cons row g ih =>
    have hcons : tripledRows (row :: g) = (tripled row ++ ['\n']) ++ tripledRows g := rfl
    have hrow : row.length = C := h row (by simp)
    have hrest : ∀ r ∈ g, r.length = C := fun r hr => h r (by simp [hr])
    rw [hcons, List.length_append, List.length_append, tripled_length, hrow, ih hrest]
    simp only [List.length_cons, List.length_nil]
    ring

theorem tripled_count (a : Char) (row : List Char) :
    (tripled row).count a = 3 * row.count a := by
  induction row with
  | nil => rfl
  | cons c row ih =>
    have h : tripled (c :: row) = [c, c, c] ++ tripled row := rfl
    rw [h, List.count_append, ih]
    simp only [List.count_cons, List.count_nil]
    split <;> omega

theorem tripledRows_count_escape (g : List (List Char)) :
    (tripledRows g).count '\x1b' = 3 * g.flatten.count '\x1b' := by
  induction g with
  | nil => rfl
  | cons row g ih =>
    have hcons : tripledRows (row :: g) = (tripled row ++ ['\n']) ++ tripledRows g := rfl
    have hnl : List.count '\x1b' ['\n'] = 0 := by decide
    rw [hcons, List.count_append, List.count_append, tripled_count, ih, hnl,
      List.flatten_cons, List.count_append]
    omega

/-- The loop over the characters of row `y`, outside full-colour mode, appends the
tripled characters of the row. -/
theorem printRow_plain (char_matrix : List (List Char)) (image : Image)
    (output_colour : AsciiColour) (hc : output_colour ≠ ascii_colour) (y : Nat)
    (row : List Char) (hrow : char_matrix[y]? = some row) (out : List Char) :
    ∀ k, k ≤ row.length →
      forUpTo (fun x out =>
        (if output_colour = ascii_colour then
          (colourSpecifier image x y).map fun specifier => out ++ specifier
        else some out).bind fun out =>
          (readAt char_matrix y x).map fun c => out ++ [c, c, c]) k out
        = some (out ++ tripled (row.take k)) := by
  intro k
  induction k with
  | zero => intro _; simp [forUpTo, tripled]
  | succ k ih =>
    intro hk
    have hlt : k < row.length := by omega
    have hread : readAt char_matrix y k = some row[k] := by
      simp [readAt, hrow, List.getElem?_eq_getElem hlt]
    rw [forUpTo, ih (Nat.le_of_succ_le hk)]
    simp only [Option.some_bind, if_neg hc, hread, Option.map_some']
    rw [List.take_succ, List.getElem?_eq_getElem hlt, tripled_append]
    simp [tripled]

/-- The loop over the rows, outside full-colour mode, appends the tripled rows. -/
theorem printRows_plain (char_matrix : List (List Char)) (image : Image)
    (output_colour : AsciiColour) (hc : output_colour ≠ ascii_colour) (start : List Char) :
    ∀ k, k ≤ char_matrix.length →
      forUpTo (fun y out =>
        (char_matrix[y]?).bind fun row =>
          (forUpTo (fun x out =>
            (if output_colour = ascii_colour then
              (colourSpecifier image x y).map fun specifier => out ++ specifier
            else some out).bind fun out =>
              (readAt char_matrix y x).map fun c => out ++ [c, c, c])
            row.length out).map fun out => out ++ ['\n']) k start
        = some (start ++ tripledRows (char_matrix.take k)) := by
  intro k
  induction k with
  | zero => intro _; simp [forUpTo, tripledRows]
  | succ k ih =>
    intro hk
    have hlt : k < char_matrix.length := by omega
    have hrow : char_matrix[k]? = some char_matrix[k] := List.getElem?_eq_getElem hlt
    simp only [forUpTo, ih (Nat.le_of_succ_le hk), Option.some_bind, hrow]
    rw [printRow_plain char_matrix image output_colour hc k _ hrow _ _ (Nat.le_refl _)]
    rw [List.take_length, List.take_succ, hrow, tripledRows_append]
    simp [tripledRows]

/-- Outside full-colour mode the output is the mode's prefix, the tripled rows and the
reset sequence. -/
theorem printCharImage_plain (char_matrix : List (List Char)) (image : Image)
    (output_colour : AsciiColour) (hc : output_colour ≠ ascii_colour) :
    printCharImage char_matrix image output_colour
      = some ((if output_colour = ascii_matrix_green then matrixGreenPrefix else []) ++
          tripledRows char_matrix ++ resetSequence) := by
  unfold printCharImage
  simp only []
  rw [printRows_plain char_matrix image output_colour hc _ _ (Nat.le_refl _), List.take_length]
  rfl

/-- C10: in the default colour mode the text written for any character grid is the
rows in order, each character three times and a newline after each row, then the reset
sequence `ESC [ 0 m`; the only escape characters besides the one of the reset sequence
are the tripled copies of those in the grid; and for a grid of `R` rows of `C` characters
the text has `R * (3 * C + 1) + 4` characters. -/
theorem default_mode_output (char_matrix : List (List Char)) (image : Image) (R C : Nat)
    (h : IsGrid char_matrix R C) :
    (∀ (grid : List (List Char)) (img : Image),
      printCharImage grid img ascii_default = some (defaultRendering grid) ∧
      (defaultRendering grid).count '\x1b' = 3 * grid.flatten.count '\x1b' + 1) ∧
    (printCharImage char_matrix image ascii_default).map List.length
      = some (R * (3 * C + 1) + 4) := by
  have hne : ascii_default ≠ ascii_colour := by decide
  have hreset : resetSequence = ['\x1b', '[', '0', 'm'] := by decide
  have hplain : ∀ (grid : List (List Char)) (img : Image),
      printCharImage grid img ascii_default = some (defaultRendering grid) := by
    intro grid img
    rw [printCharImage_plain grid img ascii_default hne, hreset]
    simp [defaultRendering]
  refine ⟨fun grid img => ⟨hplain grid img, ?_⟩, ?_⟩
  · have hcount : List.count '\x1b' ['\x1b', '[', '0', 'm'] = 1 := by decide
    rw [defaultRendering, List.count_append, tripledRows_count_escape, hcount]
  · rw [hplain, Option.map_some', defaultRendering, List.length_append,
      tripledRows_length C char_matrix h.2, h.1]
    rfl

theorem default_mode_output_witness :
    IsGrid [['a', 'b', 'c'], ['d', 'e', 'f']] 2 3 ∧
    ((∀ (grid : List (List Char)) (img : Image),
      printCharImage grid img ascii_default = some (defaultRendering grid) ∧
      (defaultRendering grid).count '\x1b' = 3 * grid.flatten.count '\x1b' + 1) ∧
    (printCharImage [['a', 'b', 'c'], ['d', 'e', 'f']] sampleImage ascii_default).map
        List.length
      = some (2 * (3 * 3 + 1) + 4)) :=
  ⟨⟨rfl, by decide⟩,
    default_mode_output [['a', 'b', 'c'], ['d', 'e', 'f']] sampleImage 2 3 ⟨rfl, by decide⟩⟩

/-! ## Rendering in full colour -/

theorem to_string_of_nonneg {v : ℤ} (h : 0 ≤ v) : to_string v = Nat.toDigits 10 v.toNat := by
  obtain ⟨n, rfl⟩ := Int.eq_ofNat_of_zero_le h
  rfl

/-- A channel in `[0,1]` is scaled to a finite double and converted to a level in
`0..255`. -/
theorem channelLevel_normalised {c : ℚ} (h : 0 ≤ c ∧ c ≤ 1) :
    channelLevel c = some (trunc (fl (255 * c))) ∧
      0 ≤ trunc (fl (255 * c)) ∧ trunc (fl (255 * c)) ≤ 255 := by
  obtain ⟨h0, h1⟩ := h
  obtain ⟨e1, n1, d1⟩ := toDouble_of_small (x := 255 * c) (by linarith) (by linarith)
  obtain ⟨_, u1⟩ := abs_le.mp d1
  have hlt : fl (255 * c) < 256 := by linarith
  refine ⟨?_, trunc_range n1 hlt⟩
  simp only [channelLevel, dmul, e1, Option.some_bind]
  exact toInt_of_range n1 hlt

/-- For a pixel with channels in `[0,1]` the specifier is the colour sequence of the
pixel. -/
theorem colourSpecifier_normalised {image : Image} (h : image.Normalised) {x y : Nat}
    (hx : x < image.columns) (hy : y < image.rows) :
    colourSpecifier image x y = some (pixelEscape image x y) := by
  obtain ⟨hr, hg, hb⟩ := h x y hx hy
  have hlead : String.toList "\x1b[38;2;" = ['\x1b', '[', '3', '8', ';', '2', ';'] := by
    decide
  have hsemi : String.toList ";" = [';'] := by decide
  have hm : String.toList "m" = ['m'] := by decide
  obtain ⟨er, r0, _⟩ := channelLevel_normalised hr
  obtain ⟨eg, g0, _⟩ := channelLevel_normalised hg
  obtain ⟨eb, b0, _⟩ := channelLevel_normalised hb
  simp only [colourSpecifier, er, eg, eb, Option.some_bind, to_string_of_nonneg r0,
    to_string_of_nonneg g0, to_string_of_nonneg b0, hlead, hsemi, hm, pixelEscape]

theorem enum_take_succ {α : Type} (l : List α) (k : Nat) (hk : k < l.length) :
    (l.take (k + 1)).enum = (l.take k).enum ++ [(k, l[k])] := by
  rw [List.take_succ, List.getElem?_eq_getElem hk, List.enum_append]
  simp [List.length_take, Nat.min_eq_left (Nat.le_of_lt hk), List.enumFrom_singleton]

/-- The loop over the characters of row `y` in full-colour mode appends the coloured
row. -/
theorem printRow_colour (char_matrix : List (List Char)) (image : Image)
    (output_colour : AsciiColour) (hc : output_colour = ascii_colour) (y : Nat)
    (row : List Char) (hrow : char_matrix[y]? = some row)
    (hspec : ∀ x, x < row.length →
      colourSpecifier image x y = some (pixelEscape image x y))
    (out : List Char) :
    ∀ k, k ≤ row.length →
      forUpTo (fun x out =>
        (if output_colour = ascii_colour then
          (colourSpecifier image x y).map fun specifier => out ++ specifier
        else some out).bind fun out =>
          (readAt char_matrix y x).map fun c => out ++ [c, c, c]) k out
        = some (out ++ colouredRow image y (row.take k)) := by
  intro k
  induction k with
  | zero => intro _; simp [forUpTo, colouredRow]
  | succ k ih =>
    intro hk
    have hlt : k < row.length := by omega
    have hread : readAt char_matrix y k = some row[k] := by
      simp [readAt, hrow, List.getElem?_eq_getElem hlt]
    rw [forUpTo, ih (Nat.le_of_succ_le hk)]
    simp only [Option.some_bind, if_pos hc, hspec k hlt, hread, Option.map_some']
    rw [colouredRow, colouredRow, enum_take_succ row k hlt, List.flatMap_append]
    simp

/-- The loop over the rows in full-colour mode appends the coloured rows. -/
theorem printRows_colour (char_matrix : List (List Char)) (image : Image)
    (output_colour : AsciiColour) (hc : output_colour = ascii_colour)
    (hspec : ∀ x y, y < char_matrix.length → x < (char_matrix.getD y []).length →
      colourSpecifier image x y = some (pixelEscape image x y))
    (start : List Char) :
    ∀ k, k ≤ char_matrix.length →
      forUpTo (fun y out =>
        (char_matrix[y]?).bind fun row =>
          (forUpTo (fun x out =>
            (if output_colour = ascii_colour then
              (colourSpecifier image x y).map fun specifier => out ++ specifier
            else some out).bind fun out =>
              (readAt char_matrix y x).map fun c => out ++ [c, c, c])
            row.length out).map fun out => out ++ ['\n']) k start
        = some (start ++ colouredRows image (char_matrix.take k)) := by
  intro k
  induction k with
  | zero => intro _; simp [forUpTo, colouredRows]
  | succ k ih =>
    intro hk
    have hlt : k < char_matrix.length := by omega
    have hrow : char_matrix[k]? = some char_matrix[k] := List.getElem?_eq_getElem hlt
    have hspeck : ∀ x, x < (char_matrix[k]).length →
        colourSpecifier image x k = some (pixelEscape image x k) := by
      intro x hx
      apply hspec x k hlt
      simpa [List.getD, hrow] using hx
    rw [forUpTo, ih (Nat.le_of_succ_le hk)]
    simp only [Option.some_bind, hrow]
    rw [printRow_colour char_matrix image output_colour hc k _ hrow hspeck _ _ (Nat.le_refl _)]
    rw [List.take_length, colouredRows, colouredRows, enum_take_succ char_matrix k hlt,
      List.flatMap_append]
    simp

/-- In full-colour mode the output is the coloured rows and the reset sequence. -/
theorem printCharImage_colour (char_matrix : List (List Char)) (image : Image)
    (output_colour : AsciiColour) (hc : output_colour = ascii_colour)
    (hspec : ∀ x y, y < char_matrix.length → x < (char_matrix.getD y []).length →
      colourSpecifier image x y = some (pixelEscape image x y)) :
    printCharImage char_matrix image output_colour
      = some ((if output_colour = ascii_matrix_green then matrixGreenPrefix else []) ++
          colouredRows image char_matrix ++ resetSequence) := by
  unfold printCharImage
  simp only []
  rw [printRows_colour char_matrix image output_colour hc hspec _ _ (Nat.le_refl _),
    List.take_length]
  rfl

theorem grey11_range : 0 ≤ grey11 ∧ grey11 ≤ 1 := by
  unfold grey11
  constructor <;> norm_num

/-- The channel value `grey11` is a double. -/
theorem fl_grey11 : fl grey11 = grey11 := by
  unfold grey11
  exact (fl_eq (-5) 6216733603272214 (by norm_num) (by norm_num) (by norm_num) (by norm_num)
    (by norm_num)).trans (by norm_num)

/-- The product `255 * grey11` rounds to the double 11. -/
theorem fl_scaled_grey11 : fl (255 * grey11) = 11 := by
  unfold grey11
  exact (fl_eq 3 6192449487634432 (by norm_num) (by norm_num) (by norm_num) (by norm_num)
    (by norm_num)).trans (by norm_num)

/-- The exact product `255 * grey11` lies just below 11. -/
theorem trunc_scaled_grey11 : trunc (255 * grey11) = 10 := by
  have h0 : (0 : ℚ) ≤ 255 * grey11 := by
    unfold grey11
    norm_num
  rw [trunc_of_nonneg h0, Int.floor_eq_iff]
  unfold grey11
  constructor <;> norm_num

/-- C11, as stated, fails: for the grey pixel whose channels are the double nearest to
`11/255`, the exact product `255 * channel` truncates to 10, but the program rounds the
product to the double 11 first and writes `ESC [ 38 ; 2 ; 11 ; 11 ; 11 m`. -/
theorem colour_digits_not_exact :
    printCharImage [['#']] (greyPixelImage grey11) ascii_colour
      = some (String.toList "\x1b[38;2;11;11;11m###\n\x1b[0m") ∧
    Nat.toDigits 10 (trunc (255 * grey11)).toNat = ['1', '0'] ∧
    (0 ≤ grey11 ∧ grey11 ≤ 1) ∧ fl grey11 = grey11 := by
  refine ⟨?_, ?_, grey11_range, fl_grey11⟩
  · have hN : (greyPixelImage grey11).Normalised := fun _ _ _ _ =>
      ⟨grey11_range, grey11_range, grey11_range⟩
    have hspec : ∀ x y, y < [['#']].length →
        x < (([['#']] : List (List Char)).getD y []).length →
        colourSpecifier (greyPixelImage grey11) x y
          = some (pixelEscape (greyPixelImage grey11) x y) := by
      intro x y _ _
      exact colourSpecifier_normalised hN (x := 0) (y := 0) Nat.one_pos Nat.one_pos
    have hne : ¬ (ascii_colour = ascii_matrix_green) := by decide
    have hpix : ∀ x y, pixelEscape (greyPixelImage grey11) x y
        = String.toList "\x1b[38;2;11;11;11m" := by
      intro x y
      have hc : ∀ x y, (greyPixelImage grey11).pixelColor x y = ⟨grey11, grey11, grey11⟩ :=
        fun _ _ => rfl
      have h11 : trunc (11 : ℚ) = 11 := by simp [trunc]
      simp only [pixelEscape, hc, fl_scaled_grey11, h11]
      decide
    rw [printCharImage_colour [['#']] (greyPixelImage grey11) ascii_colour rfl hspec,
      if_neg hne]
    simp only [colouredRows, colouredRow, List.enum, List.enumFrom, List.flatMap_cons,
      List.flatMap_nil, hpix]
    decide
  · rw [trunc_scaled_grey11]
    decide

/-- C11 (amended): in full-colour mode, for a character grid with the dimensions of an
image whose channels lie in `[0,1]`, the text written is, row by row, for each character
the sequence `ESC [ 38 ; 2 ; R ; G ; B m` of the pixel in the same column and row followed
by the character three times, a newline after each row and the reset sequence at the end;
`R`, `G`, `B` are the decimal renderings of the products `255 * red`, `255 * green`,
`255 * blue` rounded to the nearest double and then truncated, each an integer in
`0..255`. -/
theorem colour_mode_output (char_matrix : List (List Char)) (image : Image)
    (h : IsGrid char_matrix image.rows image.columns) (hN : image.Normalised) :
    printCharImage char_matrix image ascii_colour
      = some (colourRendering image char_matrix) ∧
    ∀ x y, x < image.columns → y < image.rows →
      colourSpecifier image x y = some (pixelEscape image x y) ∧
      (0 ≤ trunc (fl (255 * (image.pixelColor x y).red)) ∧
        trunc (fl (255 * (image.pixelColor x y).red)) ≤ 255) ∧
      (0 ≤ trunc (fl (255 * (image.pixelColor x y).green)) ∧
        trunc (fl (255 * (image.pixelColor x y).green)) ≤ 255) ∧
      (0 ≤ trunc (fl (255 * (image.pixelColor x y).blue)) ∧
        trunc (fl (255 * (image.pixelColor x y).blue)) ≤ 255) := by
  constructor
  · have hspec : ∀ x y, y < char_matrix.length → x < (char_matrix.getD y []).length →
        colourSpecifier image x y = some (pixelEscape image x y) := by
      intro x y hy hx
      have hrow : (char_matrix.getD y []).length = image.columns := by
        apply h.2
        simp [List.getD, List.getElem?_eq_getElem hy]
      exact colourSpecifier_normalised hN (by omega) (by rw [← h.1]; exact hy)
    have hne : ¬ (ascii_colour = ascii_matrix_green) := by decide
    have hreset : resetSequence = ['\x1b', '[', '0', 'm'] := by decide
    rw [printCharImage_colour char_matrix image ascii_colour rfl hspec, if_neg hne, hreset]
    simp [colourRendering]
  · intro x y hx hy
    obtain ⟨hr, hg, hb⟩ := hN x y hx hy
    exact ⟨colourSpecifier_normalised hN hx hy, (channelLevel_normalised hr).2,
      (channelLevel_normalised hg).2, (channelLevel_normalised hb).2⟩

theorem colour_mode_output_witness :
    IsGrid [['a', 'b', 'c'], ['d', 'e', 'f']] sampleImage.rows sampleImage.columns ∧
    sampleImage.Normalised ∧
    (printCharImage [['a', 'b', 'c'], ['d', 'e', 'f']] sampleImage ascii_colour
      = some (colourRendering sampleImage [['a', 'b', 'c'], ['d', 'e', 'f']]) ∧
    ∀ x y, x < sampleImage.columns → y < sampleImage.rows →
      colourSpecifier sampleImage x y = some (pixelEscape sampleImage x y) ∧
      (0 ≤ trunc (fl (255 * (sampleImage.pixelColor x y).red)) ∧
        trunc (fl (255 * (sampleImage.pixelColor x y).red)) ≤ 255) ∧
      (0 ≤ trunc (fl (255 * (sampleImage.pixelColor x y).green)) ∧
        trunc (fl (255 * (sampleImage.pixelColor x y).green)) ≤ 255) ∧
      (0 ≤ trunc (fl (255 * (sampleImage.pixelColor x y).blue)) ∧
        trunc (fl (255 * (sampleImage.pixelColor x y).blue)) ≤ 255)) :=
  ⟨⟨rfl, by decide⟩, sampleImage_normalised,
    colour_mode_output [['a', 'b', 'c'], ['d', 'e', 'f']] sampleImage ⟨rfl, by decide⟩
      sampleImage_normalised⟩

/-- C12: for every character grid the default mode writes some text, and the
matrix-green mode writes the background sequence `ESC [ 48 ; 2 ; 13 ; 2 ; 8 m`, the
foreground sequence `ESC [ 38 ; 2 ; 0 ; 143 ; 17 m` and then exactly that text. -/
theorem matrix_green_adds_prefix (char_matrix : List (List Char)) (image : Image) :
    ∃ text, printCharImage char_matrix image ascii_default = some text ∧
      printCharImage char_matrix image ascii_matrix_green
        = some (String.toList "\x1b[48;2;13;2;8m" ++ String.toList "\x1b[38;2;0;143;17m"
            ++ text) := by
  have hd : ascii_default ≠ ascii_colour := by decide
  have hg : ascii_matrix_green ≠ ascii_colour := by decide
  have hnd : ¬ (ascii_default = ascii_matrix_green) := by decide
  have hprefix : matrixGreenPrefix
      = String.toList "\x1b[48;2;13;2;8m" ++ String.toList "\x1b[38;2;0;143;17m" := by
    decide
  refine ⟨tripledRows char_matrix ++ resetSequence, ?_, ?_⟩
  · rw [printCharImage_plain char_matrix image ascii_default hd, if_neg hnd]
    simp
  · rw [printCharImage_plain char_matrix image ascii_matrix_green hg, if_pos rfl, hprefix]
    simp

/-! ## Grey pixels -/

/-- Over exact rationals every formula sends a grey pixel of level `v` to `255 * v`. -/
theorem exactBrightness_grey (m : BrightnessMapping) (v : ℚ) :
    exactBrightness m v v v = 255 * v := by
  cases m
  · simp only [exactBrightness]
    ring
  · simp only [exactBrightness, max_self, min_self]
    ring
  · simp only [exactBrightness]
    norm_num
    ring

theorem greyPixelImage_normalised {v : ℚ} (h0 : 0 ≤ v) (h1 : v ≤ 1) :
    (greyPixelImage v).Normalised := by
  intro x y _ _
  exact ⟨⟨h0, h1⟩, ⟨h0, h1⟩, ⟨h0, h1⟩⟩

/-- The matrix of a grey pixel of level `v` in `[0,1]`: the truncation of a double within
`2 ^ (-30)` of `255 * v`. -/
theorem constructBrightnessMatrix_grey (m : BrightnessMapping) {v : ℚ} (h0 : 0 ≤ v)
    (h1 : v ≤ 1) :
    ∃ q, constructBrightnessMatrix (greyPixelImage v) m = some [[trunc q]] ∧ 0 ≤ q ∧
      |q - 255 * v| ≤ 1 / 1073741824 := by
  obtain ⟨q, hq, hq0, hq1, hnear⟩ :=
    brightness_map_spec m ⟨h0, h1⟩ ⟨h0, h1⟩ ⟨h0, h1⟩
  rw [exactBrightness_grey] at hnear
  exact ⟨q, constructBrightnessMatrix_pixel ⟨v, v, v⟩ m hq (toInt_of_range hq0 hq1), hq0,
    hnear⟩

theorem constructBrightnessMatrix_black (m : BrightnessMapping) :
    constructBrightnessMatrix (greyPixelImage 0) m = some [[0]] := by
  have h0 : toInt 0 = some 0 :=
    toInt_eval 0 (by norm_num) (by norm_num) (by norm_num) (by norm_num)
  cases m
  · exact constructBrightnessMatrix_pixel ⟨0, 0, 0⟩ _ brightness_black_average h0
  · exact constructBrightnessMatrix_pixel ⟨0, 0, 0⟩ _ brightness_black_min_max h0
  · exact constructBrightnessMatrix_pixel ⟨0, 0, 0⟩ _ brightness_black_luminosity h0

theorem constructBrightnessMatrix_white (m : BrightnessMapping) :
    constructBrightnessMatrix (greyPixelImage 1) m = some [[255]] := by
  have h255 : toInt 255 = some 255 :=
    toInt_eval 255 (by norm_num) (by norm_num) (by norm_num) (by norm_num)
  cases m
  · exact constructBrightnessMatrix_pixel ⟨1, 1, 1⟩ _ brightness_white_average h255
  · exact constructBrightnessMatrix_pixel ⟨1, 1, 1⟩ _ brightness_white_min_max h255
  · exact constructBrightnessMatrix_pixel ⟨1, 1, 1⟩ _ brightness_white_luminosity h255

/-- C13, as stated, fails: for the grey pixel whose channels are the double nearest to
`11/255` the average mapping stores 10 while min/max and luminosity store 11, so the
mappings do not agree, and two of them do not store `trunc (255 * v) = 10`. -/
theorem grey_level_splits :
    constructBrightnessMatrix (greyPixelImage grey11) brightness_average = some [[10]] ∧
    constructBrightnessMatrix (greyPixelImage grey11) brightness_min_max = some [[11]] ∧
    constructBrightnessMatrix (greyPixelImage grey11) brightness_luminosity = some [[11]] ∧
    trunc (255 * grey11) = 10 ∧ (0 ≤ grey11 ∧ grey11 ≤ 1) ∧ fl grey11 = grey11 := by
  refine ⟨?_, ?_, ?_, trunc_scaled_grey11, grey11_range, fl_grey11⟩
  · exact constructBrightnessMatrix_pixel ⟨grey11, grey11, grey11⟩ brightness_average
      brightness_grey11_average
      (toInt_eval 10 (by norm_num) (by norm_num) (by norm_num) (by norm_num))
  · exact constructBrightnessMatrix_pixel ⟨grey11, grey11, grey11⟩ brightness_min_max
      brightness_grey11_min_max
      (toInt_eval 11 (by norm_num) (by norm_num) (by norm_num) (by norm_num))
  · exact constructBrightnessMatrix_pixel ⟨grey11, grey11, grey11⟩ brightness_luminosity
      brightness_grey11_luminosity
      (toInt_eval 11 (by norm_num) (by norm_num) (by norm_num) (by norm_num))

/-- C13 (amended): on grey pixels the three mappings agree to within one.  For a rational
`v` in `[0,1]` and any two mappings, the brightness stored for `red = green = blue = v`
differs by at most one between the mappings and by at most one from `trunc (255 * v)`:
over exact rationals every formula equals `255 * v` (the luminosity weights sum to exactly
1), and the double operations round.  Black is stored as 0 and white as 255 under every
mapping. -/
theorem grey_pixels_agree (m1 m2 : BrightnessMapping) (v : ℚ) (h0 : 0 ≤ v) (h1 : v ≤ 1) :
    (∃ b1 b2, constructBrightnessMatrix (greyPixelImage v) m1 = some [[b1]] ∧
      constructBrightnessMatrix (greyPixelImage v) m2 = some [[b2]] ∧
      |b1 - b2| ≤ 1 ∧ |b1 - trunc (255 * v)| ≤ 1) ∧
    exactBrightness m1 v v v = 255 * v ∧
    (0.21 + 0.72 + 0.07 : ℚ) = 1 ∧
    constructBrightnessMatrix (greyPixelImage 0) m1 = some [[0]] ∧
    constructBrightnessMatrix (greyPixelImage 1) m1 = some [[255]] := by
  refine ⟨?_, exactBrightness_grey m1 v, by norm_num, constructBrightnessMatrix_black m1,
    constructBrightnessMatrix_white m1⟩
  obtain ⟨q1, e1, p1, d1⟩ := constructBrightnessMatrix_grey m1 h0 h1
  obtain ⟨q2, e2, p2, d2⟩ := constructBrightnessMatrix_grey m2 h0 h1
  obtain ⟨l1, u1⟩ := abs_le.mp d1
  obtain ⟨l2, u2⟩ := abs_le.mp d2
  have hv : (0 : ℚ) ≤ 255 * v := by linarith
  refine ⟨trunc q1, trunc q2, e1, e2, trunc_near p1 p2 ?_, trunc_near p1 hv ?_⟩
  · rw [abs_lt]
    constructor <;> linarith
  · exact lt_of_le_of_lt d1 (by norm_num)

theorem grey_pixels_agree_witness :
    (0 : ℚ) ≤ 1 / 2 ∧ (1 / 2 : ℚ) ≤ 1 ∧
    ((∃ b1 b2,
      constructBrightnessMatrix (greyPixelImage (1 / 2)) brightness_average = some [[b1]] ∧
      constructBrightnessMatrix (greyPixelImage (1 / 2)) brightness_luminosity
        = some [[b2]] ∧
      |b1 - b2| ≤ 1 ∧ |b1 - trunc (255 * (1 / 2))| ≤ 1) ∧
    exactBrightness brightness_average (1 / 2) (1 / 2) (1 / 2) = 255 * (1 / 2) ∧
    (0.21 + 0.72 + 0.07 : ℚ) = 1 ∧
    constructBrightnessMatrix (greyPixelImage 0) brightness_average = some [[0]] ∧
    constructBrightnessMatrix (greyPixelImage 1) brightness_average = some [[255]]) :=
  ⟨by norm_num, by norm_num,
    grey_pixels_agree brightness_average brightness_luminosity (1 / 2) (by norm_num)
      (by norm_num)⟩

/-! ## Reachability of the ramp -/

/-- C14: every ramp position `k` in `0..64` is the position of some brightness in
`0..255`, and a brightness in `0..254` is sent to a position of at most 63, hence never
to the last character `$`, which occurs in the ramp only at position 64. -/
theorem ramp_positions_reachable (k : Nat) (b : ℤ) (hk : k ≤ 64) (hb0 : 0 ≤ b)
    (hb1 : b ≤ 254) :
    (∃ b2 : ℤ, 0 ≤ b2 ∧ b2 ≤ 255 ∧ b2 * 64 / 255 = (k : ℤ) ∧ rampIndex b2 = k ∧
      characters[rampIndex b2]? = characters[k]?) ∧
    rampIndex b ≤ 63 ∧ characters[rampIndex b]? ≠ some '$' ∧
    characters[64]? = some '$' := by
  refine ⟨?_, ?_, ?_, by decide⟩
  · have h0 : (0 : ℤ) ≤ ((255 * k + 63) / 64 : ℕ) := Int.ofNat_nonneg _
    have h1 : (((255 * k + 63) / 64 : ℕ) : ℤ) ≤ 255 := by omega
    have hidx : rampIndex (((255 * k + 63) / 64 : ℕ) : ℤ) = k := by
      rw [rampIndex_of_range h0 h1]
      simp only [Int.toNat_ofNat]
      omega
    refine ⟨(((255 * k + 63) / 64 : ℕ) : ℤ), h0, h1, by omega, hidx, by rw [hidx]⟩
  · rw [rampIndex_of_range hb0 (by omega)]
    omega
  · have hle : rampIndex b ≤ 63 := by
      rw [rampIndex_of_range hb0 (by omega)]
      omega
    have hall : ∀ i, i ≤ 63 → characters[i]? ≠ some '$' := by decide
    exact hall _ hle

theorem ramp_positions_reachable_witness :
    (17 : Nat) ≤ 64 ∧ (0 : ℤ) ≤ 254 ∧ (254 : ℤ) ≤ 254 ∧
    ((∃ b2 : ℤ, 0 ≤ b2 ∧ b2 ≤ 255 ∧ b2 * 64 / 255 = ((17 : Nat) : ℤ) ∧ rampIndex b2 = 17 ∧
      characters[rampIndex b2]? = characters[17]?) ∧
    rampIndex 254 ≤ 63 ∧ characters[rampIndex 254]? ≠ some '$' ∧
    characters[64]? = some '$') :=
  ⟨by decide, by decide, by decide,
    ramp_positions_reachable 17 254 (by decide) (by decide) (by decide)⟩

/-! ## Ignored arguments -/

/-- An argument that is neither of the two options with a value keeps the parse
successful and at most sets the invert flag. -/
theorem parseOption_ignored (argv : List String) (i : Nat) (o : Options)
    (h1 : arg argv i ≠ "--output-colour") (h2 : arg argv i ≠ "--brightness-mapping") :
    parseOption argv i o
      = (true, if arg argv i = "--invert" then { o with invert := true } else o) := by
  unfold parseOption
  simp only [h1, h2, if_false]
  split <;> rfl

theorem parseOptions_ignored (argv : List String) (n : Nat) :
    ∀ (i : Nat) (o : Options), argv.length ≤ i + n →
      (∀ a ∈ argv.drop i, a ≠ "--output-colour" ∧ a ≠ "--brightness-mapping") →
      parseOptions argv n i true o
        = (true, ⟨o.file_name, o.output_colour, o.brightness_mapping,
            if "--invert" ∈ argv.drop i then true else o.invert⟩) := by
  induction n with
  | zero =>
    intro i o hlen _
    have hdrop : argv.drop i = [] := List.drop_eq_nil_of_le (by omega)
    simp [parseOptions, hdrop]
  | succ n ih =>
    intro i o hlen hno
    by_cases hi : i < argv.length
    · have hdrop : argv.drop i = argv[i] :: argv.drop (i + 1) := List.drop_eq_getElem_cons hi
      have harg : arg argv i = argv[i] := by
        simp [arg, List.getD, List.getElem?_eq_getElem hi]
      have hhead := hno argv[i] (by rw [hdrop]; exact List.mem_cons_self _ _)
      have hrest : ∀ a ∈ argv.drop (i + 1),
          a ≠ "--output-colour" ∧ a ≠ "--brightness-mapping" := by
        intro a ha
        exact hno a (by rw [hdrop]; exact List.mem_cons_of_mem _ ha)
      have hstep := parseOption_ignored argv i o (by rw [harg]; exact hhead.1)
        (by rw [harg]; exact hhead.2)
      have hcond : i < argv.length ∧ true = true := ⟨hi, rfl⟩
      rw [parseOptions, if_pos hcond, hstep]
      simp only []
      rw [ih (i + 1) _ (by omega) hrest, hdrop, harg]
      by_cases hinv : argv[i] = "--invert"
      · simp only [hinv, if_true, List.mem_cons, true_or, ite_self]
      · have hne : ¬ ("--invert" = argv[i]) := fun e => hinv e.symm
        simp only [hinv, if_false, List.mem_cons, hne, false_or]
    · have hdrop : argv.drop i = [] := List.drop_eq_nil_of_le (by omega)
      have hcond : ¬ (i < argv.length ∧ true = true) := fun h => hi h.1
      rw [parseOptions, if_neg hcond, hdrop]
      simp

/-- C15: when the argument list has at least two entries and none from position 2 on is
`--output-colour` or `--brightness-mapping`, the parser succeeds, the file name is
`argv[1]`, the output colour and the brightness mapping keep the values they had on
entry, and the invert flag is true if `--invert` occurs from position 2 on and is
unchanged otherwise. -/
theorem unrecognised_arguments_ignored (argv : List String) (o : Options)
    (hlen : 2 ≤ argv.length)
    (hno : ∀ a ∈ argv.drop 2, a ≠ "--output-colour" ∧ a ≠ "--brightness-mapping") :
    parseArguments argv o
      = (true, ⟨arg argv 1, o.output_colour, o.brightness_mapping,
          if "--invert" ∈ argv.drop 2 then true else o.invert⟩) := by
  simp only [parseArguments, hlen, if_true]
  rw [parseOptions_ignored argv argv.length 2 _ (by omega) hno]

theorem unrecognised_arguments_ignored_witness :
    2 ≤ (["ascii-art", "image.png", "--verbose", "--invert", "x"] : List String).length ∧
    (∀ a ∈ (["ascii-art", "image.png", "--verbose", "--invert", "x"] : List String).drop 2,
      a ≠ "--output-colour" ∧ a ≠ "--brightness-mapping") ∧
    parseArguments ["ascii-art", "image.png", "--verbose", "--invert", "x"] initialOptions
      = (true, ⟨arg ["ascii-art", "image.png", "--verbose", "--invert", "x"] 1,
          initialOptions.output_colour, initialOptions.brightness_mapping,
          if "--invert" ∈
              (["ascii-art", "image.png", "--verbose", "--invert", "x"] : List String).drop 2
            then true else initialOptions.invert⟩) :=
  ⟨by decide, by decide,
    unrecognised_arguments_ignored ["ascii-art", "image.png", "--verbose", "--invert", "x"]
      initialOptions (by decide) (by decide)⟩

/-! ## Rows of the brightness matrix -/

theorem readAt_mem {α : Type} {m : List (List α)} {y x : Nat} {a : α}
    (h : readAt m y x = some a) : ∃ row ∈ m, a ∈ row := by
  unfold readAt at h
  cases hrow : m[y]? with
  | none => simp [hrow] at h
  | some row =>
    rw [hrow, Option.some_bind] at h
    exact ⟨row, List.mem_iff_getElem?.mpr ⟨y, hrow⟩, List.mem_iff_getElem?.mpr ⟨x, h⟩⟩

/-- C16: on a grid with zero rows `convertToASCII` fails, the read of row 0 being out of
bounds; on a rectangular grid of `R ≥ 1` rows of `C` values in `0..255` it returns a grid
of `R` rows of `C` characters, also when `C = 0`, as on two empty rows. -/
theorem convertToASCII_needs_a_row (M : List (List ℤ)) (R C : Nat) (hM : IsGrid M R C)
    (hR : 1 ≤ R) (hrange : ∀ row ∈ M, ∀ b ∈ row, 0 ≤ b ∧ b ≤ 255) :
    ([] : List (List ℤ))[0]? = none ∧ convertToASCII [] = none ∧
    (∃ G, convertToASCII M = some G ∧ IsGrid G R C) ∧
    convertToASCII [[], []] = some [[], []] := by
  refine ⟨rfl, rfl, ?_, by decide⟩
  obtain ⟨G, hG, hgrid, _⟩ :=
    convertToASCII_fill hM hR
      (fun x y => characters.getD (rampIndex ((readAt M y x).getD 0)) (Char.ofNat 0))
      (fun x y hx hy => by
        obtain ⟨b, hb⟩ := readAt_isSome hM hy hx
        obtain ⟨row, hrow, hmem⟩ := readAt_mem hb
        obtain ⟨h0, h1⟩ := hrange row hrow b hmem
        obtain ⟨c, hc, _⟩ := characters_lookup (rampIndex_le h0 h1)
        exact ⟨b, hb, by simp [hb, List.getD, hc]⟩)
  exact ⟨G, hG, hgrid⟩

theorem convertToASCII_needs_a_row_witness :
    IsGrid ([[0, 128], [255, 7], [64, 200]] : List (List ℤ)) 3 2 ∧ 1 ≤ 3 ∧
    (∀ row ∈ ([[0, 128], [255, 7], [64, 200]] : List (List ℤ)), ∀ b ∈ row,
      0 ≤ b ∧ b ≤ 255) ∧
    (([] : List (List ℤ))[0]? = none ∧ convertToASCII [] = none ∧
    (∃ G, convertToASCII [[0, 128], [255, 7], [64, 200]] = some G ∧ IsGrid G 3 2) ∧
    convertToASCII [[], []] = some [[], []]) :=
  ⟨⟨rfl, by decide⟩, by decide, by decide,
    convertToASCII_needs_a_row [[0, 128], [255, 7], [64, 200]] 3 2 ⟨rfl, by decide⟩
      (by decide) (by decide)⟩

end AsciiArt
